import Mathlib

/-!
Verification of the WindFarmsNZ wind-analysis core against its
natural-language specification.

The JavaScript source is shallowly embedded: numbers (JS float64 used as
exact decimal quantities here) become `ℚ`, timestamps become rational
hours since an epoch (`moment` hour/date extraction becomes floor/mod
arithmetic), JS arrays become `List`, JS objects with string keys become
association lists in insertion order, and `undefined` becomes `Option`.
-/

namespace WindFarmsNZ

/-- A normalized hourly reading, as produced by the wind-data service
(`wind-data-service.js`, `getHistoricalData` formatting step). Timestamps
are modeled as rational hours since an epoch; the ISO-8601 string in the
source is the presentation of this instant. All numeric fields are total:
the `|| 0` defaulting in the source has already been applied. -/
structure Reading where
  timestamp : ℚ
  windSpeedKmh : ℚ
  windSpeed100mKmh : ℚ
  windGustsKmh : ℚ
  windDirection : ℚ
  temperature : ℚ
  humidity : ℚ
  pressure : ℚ
deriving DecidableEq, Repr

/-- Hour-of-day extraction: model of `moment(reading.timestamp).hour()`
for a timestamp in hours since the epoch. -/
def hourOf (t : ℚ) : Fin 24 :=
  ⟨(Int.floor t).toNat % 24, Nat.mod_lt _ (by norm_num)⟩

/-- Calendar-date extraction: model of
`moment(timestamp).format("YYYY-MM-DD")`, identifying a date with its day
index since the epoch. -/
def dateOf (t : ℚ) : ℤ :=
  Int.floor (t / 24)

/-- JS `Math.round`: rounds half toward positive infinity. -/
def jsRound (q : ℚ) : ℤ :=
  Int.floor (q + 1/2)

/-- JS array indexing `arr[i]` for a possibly negative index `i`:
out-of-range access yields `undefined`, modeled as `none`. -/
def jsIndex (l : List String) (i : ℤ) : Option String :=
  if 0 ≤ i then l.get? i.toNat else none

/-- The 16 compass sector names, in the order they appear in
`getWindDirection` (`wind-analysis-service.js` line 415 and the identical
copy in the multi-location service). -/
def directionNames : List String :=
  ["N", "NNE", "NE", "ENE", "E", "ESE", "SE", "SSE",
   "S", "SSW", "SW", "WSW", "W", "WNW", "NW", "NNW"]

/-- Model of `getWindDirection(degrees)`:
`index = Math.round(degrees / 22.5) % 16; return directions[index]`.
JS `%` truncates toward zero (`Int.tmod`); a negative index would read
past the array and yield `undefined` (`none`). -/
def getWindDirection (degrees : ℚ) : Option String :=
  jsIndex directionNames ((jsRound (degrees / (45/2))).tmod 16)

/-- Static wind-farm reference data (`nz-wind-farms.json` records as
loaded by `loadWindFarms`). -/
structure WindFarm where
  name : String
  lat : ℚ
  lon : ℚ
  region : String
  capacity : ℚ
  operator : String
deriving DecidableEq, Repr

/-! ## Period detector (`StrongWindPeriodsService.findStrongWindPeriods`)

The detector is embedded once, parameterized by the speed selector
(`reading.windSpeed100mKmh || 0` in the NZ-wide service,
`reading.windSpeedKmh` in the single-location service), the threshold and
the minimum duration (instance configuration fields in the source). With
the total `ℚ`-valued fields of `Reading`, `x || 0` is the identity. -/

/-- The open period being accumulated by the scan: the object built at
"Start of a strong wind period" before `endTime` and the statistics are
filled in at close time. -/
structure CurrentPeriod where
  startTime : ℚ
  startWindSpeed : ℚ
  maxWindSpeed : ℚ
  readings : List Reading
  windFarm : String
deriving DecidableEq, Repr

/-- A closed strong-wind period as pushed onto `periods`. -/
structure StrongWindPeriod where
  startTime : ℚ
  startWindSpeed : ℚ
  maxWindSpeed : ℚ
  readings : List Reading
  windFarm : String
  endTime : ℚ
  durationHours : ℚ
  avgWindSpeed : ℚ
deriving DecidableEq, Repr

/-- Closing an open period at boundary timestamp `endT`:
`durationHours = moment(endTime).diff(moment(startTime), "hours", true)`
(a fractional difference, which for timestamps in hours is subtraction),
`avgWindSpeed` the arithmetic mean of the tested speeds of the collected
readings. -/
def closePeriod (speedOf : Reading → ℚ) (c : CurrentPeriod) (endT : ℚ) :
    StrongWindPeriod :=
  { startTime := c.startTime
    startWindSpeed := c.startWindSpeed
    maxWindSpeed := c.maxWindSpeed
    readings := c.readings
    windFarm := c.windFarm
    endTime := endT
    durationHours := endT - c.startTime
    avgWindSpeed := (c.readings.map speedOf).sum / c.readings.length }

/-- The open period created when a qualifying reading is seen with no
period active. -/
def initPeriod (speedOf : Reading → ℚ) (farmName : String) (r : Reading) :
    CurrentPeriod :=
  { startTime := r.timestamp
    startWindSpeed := speedOf r
    maxWindSpeed := speedOf r
    readings := [r]
    windFarm := farmName }

/-- Extending the open period with a further qualifying reading:
`readings.push(reading)` and
`maxWindSpeed = Math.max(currentPeriod.maxWindSpeed, windSpeed100m)`. -/
def pushReading (speedOf : Reading → ℚ) (c : CurrentPeriod) (r : Reading) :
    CurrentPeriod :=
  { c with
    readings := c.readings ++ [r]
    maxWindSpeed := max c.maxWindSpeed (speedOf r) }

/-- The main loop of `findStrongWindPeriods`: left-to-right scan over the
readings, returning the periods emitted by in-loop closes together with
the final state of `currentPeriod`. A period closed mid-scan is kept only
if `durationHours >= minimumDurationHours`. -/
def scanPeriods (speedOf : Reading → ℚ) (threshold minDur : ℚ)
    (farmName : String) :
    Option CurrentPeriod → List Reading →
      List StrongWindPeriod × Option CurrentPeriod
  | cur, [] => ([], cur)
  | cur, r :: rest =>
    if threshold ≤ speedOf r then
      match cur with
      | none =>
          scanPeriods speedOf threshold minDur farmName
            (some (initPeriod speedOf farmName r)) rest
      | some c =>
          scanPeriods speedOf threshold minDur farmName
            (some (pushReading speedOf c r)) rest
    else
      match cur with
      | none => scanPeriods speedOf threshold minDur farmName none rest
      | some c =>
          let p := closePeriod speedOf c r.timestamp
          let s := scanPeriods speedOf threshold minDur farmName none rest
          ((if minDur ≤ p.durationHours then [p] else []) ++ s.1, s.2)
termination_by structural _cur data => data

/-- Model of `StrongWindPeriodsService.findStrongWindPeriods(data, windFarm)`
(`isStrongWind = windSpeed100m >= this.strongWindThreshold`), with the
configurable threshold and minimum duration as parameters. After the
loop, a still-open period is closed at `data[data.length - 1].timestamp`
and kept under the same duration filter; an open period implies the data
list is non-empty, so the `none` fallback is unreachable. -/
def findStrongWindPeriods (speedOf : Reading → ℚ) (threshold minDur : ℚ)
    (farmName : String) (data : List Reading) : List StrongWindPeriod :=
  let s := scanPeriods speedOf threshold minDur farmName none data
  match s.2, data.getLast? with
  | some c, some last =>
      let p := closePeriod speedOf c last.timestamp
      if minDur ≤ p.durationHours then s.1 ++ [p] else s.1
  | _, _ => s.1

/-- The scan without the minimum-duration filter: every closed period is
pushed. Used to relate detectors at different `minDur` settings. -/
def scanPeriodsRaw (speedOf : Reading → ℚ) (threshold : ℚ)
    (farmName : String) :
    Option CurrentPeriod → List Reading →
      List StrongWindPeriod × Option CurrentPeriod
  | cur, [] => ([], cur)
  | cur, r :: rest =>
    if threshold ≤ speedOf r then
      match cur with
      | none =>
          scanPeriodsRaw speedOf threshold farmName
            (some (initPeriod speedOf farmName r)) rest
      | some c =>
          scanPeriodsRaw speedOf threshold farmName
            (some (pushReading speedOf c r)) rest
    else
      match cur with
      | none => scanPeriodsRaw speedOf threshold farmName none rest
      | some c =>
          let p := closePeriod speedOf c r.timestamp
          let s := scanPeriodsRaw speedOf threshold farmName none rest
          (p :: s.1, s.2)
termination_by structural _cur data => data

/-- The detector without the minimum-duration filter. -/
def findStrongWindPeriodsRaw (speedOf : Reading → ℚ) (threshold : ℚ)
    (farmName : String) (data : List Reading) : List StrongWindPeriod :=
  let s := scanPeriodsRaw speedOf threshold farmName none data
  match s.2, data.getLast? with
  | some c, some last => s.1 ++ [closePeriod speedOf c last.timestamp]
  | _, _ => s.1

/-! ## Scan lemmas -/

/-- Readings held by the open period; `[]` when no period is active. -/
def curReadings : Option CurrentPeriod → List Reading
  | none => []
  | some c => c.readings

/-- Extending an open period by a whole list of readings. -/
def extendPeriod (speedOf : Reading → ℚ) (c : CurrentPeriod)
    (run : List Reading) : CurrentPeriod :=
  run.foldl (pushReading speedOf) c

theorem extendPeriod_readings (speedOf : Reading → ℚ) (c : CurrentPeriod)
    (run : List Reading) :
    (extendPeriod speedOf c run).readings = c.readings ++ run := by
  induction run generalizing c with
  | nil => simp [extendPeriod]
  | cons r rest ih =>
      show (extendPeriod speedOf (pushReading speedOf c r) rest).readings = _
      rw [ih]
      simp [pushReading]

theorem extendPeriod_startTime (speedOf : Reading → ℚ) (c : CurrentPeriod)
    (run : List Reading) :
    (extendPeriod speedOf c run).startTime = c.startTime := by
  induction run generalizing c with
  | nil => rfl
  | cons r rest ih =>
      show (extendPeriod speedOf (pushReading speedOf c r) rest).startTime = _
      rw [ih]
      rfl

theorem extendPeriod_startWindSpeed (speedOf : Reading → ℚ)
    (c : CurrentPeriod) (run : List Reading) :
    (extendPeriod speedOf c run).startWindSpeed = c.startWindSpeed := by
  induction run generalizing c with
  | nil => rfl
  | cons r rest ih =>
      show (extendPeriod speedOf (pushReading speedOf c r) rest).startWindSpeed = _
      rw [ih]
      rfl

theorem extendPeriod_windFarm (speedOf : Reading → ℚ) (c : CurrentPeriod)
    (run : List Reading) :
    (extendPeriod speedOf c run).windFarm = c.windFarm := by
  induction run generalizing c with
  | nil => rfl
  | cons r rest ih =>
      show (extendPeriod speedOf (pushReading speedOf c r) rest).windFarm = _
      rw [ih]
      rfl

theorem extendPeriod_maxWindSpeed (speedOf : Reading → ℚ) (c : CurrentPeriod)
    (run : List Reading) :
    (extendPeriod speedOf c run).maxWindSpeed =
      run.foldl (fun m r => max m (speedOf r)) c.maxWindSpeed := by
  induction run generalizing c with
  | nil => rfl
  | cons r rest ih =>
      show (extendPeriod speedOf (pushReading speedOf c r) rest).maxWindSpeed = _
      rw [ih]
      rfl

/-- Scanning a concatenation: the loop processes `xs` first, then `ys`
from the state left by `xs`. -/
theorem scanPeriods_append (speedOf : Reading → ℚ) (threshold minDur : ℚ)
    (farmName : String) (xs ys : List Reading) (cur : Option CurrentPeriod) :
    scanPeriods speedOf threshold minDur farmName cur (xs ++ ys) =
      ((scanPeriods speedOf threshold minDur farmName cur xs).1 ++
        (scanPeriods speedOf threshold minDur farmName
          (scanPeriods speedOf threshold minDur farmName cur xs).2 ys).1,
       (scanPeriods speedOf threshold minDur farmName
          (scanPeriods speedOf threshold minDur farmName cur xs).2 ys).2) := by
  induction xs generalizing cur with
  | nil => simp [scanPeriods]
  | cons r rest ih =>
      by_cases hq : threshold ≤ speedOf r
      · cases cur with
        | none => simpa [scanPeriods, hq] using ih _
        | some c => simpa [scanPeriods, hq] using ih _
      · cases cur with
        | none => simpa [scanPeriods, hq] using ih _
        | some c => simp [scanPeriods, hq, ih, List.append_assoc]

/-- Scanning a run of qualifying readings only extends the open period. -/
theorem scanPeriods_qualifying_run (speedOf : Reading → ℚ)
    (threshold minDur : ℚ) (farmName : String) (run : List Reading)
    (c : CurrentPeriod) (hrun : ∀ r ∈ run, threshold ≤ speedOf r) :
    scanPeriods speedOf threshold minDur farmName (some c) run =
      ([], some (extendPeriod speedOf c run)) := by
  induction run generalizing c with
  | nil => rfl
  | cons r rest ih =>
      have hq : threshold ≤ speedOf r := hrun r (List.mem_cons_self r rest)
      have := ih (pushReading speedOf c r)
        (fun x hx => hrun x (List.mem_cons_of_mem r hx))
      simpa [scanPeriods, hq, extendPeriod] using this

/-- After a reading below the threshold, no period is open; hence a scan
of a list that ends with a disqualifying reading leaves no open period. -/
theorem scanPeriods_ends_below (speedOf : Reading → ℚ)
    (threshold minDur : ℚ) (farmName : String) (xs : List Reading)
    (d : Reading) (hd : ¬ threshold ≤ speedOf d)
    (cur : Option CurrentPeriod) :
    (scanPeriods speedOf threshold minDur farmName cur (xs ++ [d])).2 =
      none := by
  rw [scanPeriods_append]
  cases hcur : (scanPeriods speedOf threshold minDur farmName cur xs).2 with
  | none => simp [scanPeriods, hd]
  | some c => simp [scanPeriods, hd]

/-- Soundness of the in-loop emissions: every period emitted during the
scan consists of qualifying readings and is immediately followed, in the
readings being scanned, by a reading strictly below the threshold. -/
theorem scanPeriods_emitted_sound (speedOf : Reading → ℚ)
    (threshold minDur : ℚ) (farmName : String) (data : List Reading) :
    ∀ (cur : Option CurrentPeriod),
      (∀ c, cur = some c → ∀ r ∈ c.readings, threshold ≤ speedOf r) →
      ∀ p ∈ (scanPeriods speedOf threshold minDur farmName cur data).1,
        (∀ r ∈ p.readings, threshold ≤ speedOf r) ∧
        ∃ pre d rest,
          curReadings cur ++ data = pre ++ p.readings ++ d :: rest ∧
          speedOf d < threshold := by
  induction data with
  | nil =>
      intro cur hcur p hp
      simp [scanPeriods] at hp
  | cons r rest ih =>
      intro cur hcur p hp
      by_cases hq : threshold ≤ speedOf r
      · cases cur with
        | none =>
            rw [show scanPeriods speedOf threshold minDur farmName none
                  (r :: rest) =
                scanPeriods speedOf threshold minDur farmName
                  (some (initPeriod speedOf farmName r)) rest from by
                  simp [scanPeriods, hq]] at hp
            have hcur' : ∀ c, some (initPeriod speedOf farmName r) = some c →
                ∀ x ∈ c.readings, threshold ≤ speedOf x := by
              intro c hc x hx
              cases hc
              simp [initPeriod] at hx
              simpa [hx] using hq
            obtain ⟨h1, pre, d, tail, heq, hd⟩ := ih _ hcur' p hp
            refine ⟨h1, pre, d, tail, ?_, hd⟩
            simpa [curReadings, initPeriod] using heq
        | some c =>
            rw [show scanPeriods speedOf threshold minDur farmName (some c)
                  (r :: rest) =
                scanPeriods speedOf threshold minDur farmName
                  (some (pushReading speedOf c r)) rest from by
                  simp [scanPeriods, hq]] at hp
            have hcur' : ∀ c', some (pushReading speedOf c r) = some c' →
                ∀ x ∈ c'.readings, threshold ≤ speedOf x := by
              intro c' hc x hx
              cases hc
              simp [pushReading] at hx
              rcases hx with hx | hx
              · exact hcur c rfl x hx
              · simpa [hx] using hq
            obtain ⟨h1, pre, d, tail, heq, hd⟩ := ih _ hcur' p hp
            refine ⟨h1, pre, d, tail, ?_, hd⟩
            simpa [curReadings, pushReading] using heq
      · cases cur with
        | none =>
            rw [show scanPeriods speedOf threshold minDur farmName none
                  (r :: rest) =
                scanPeriods speedOf threshold minDur farmName none rest from by
                  simp [scanPeriods, hq]] at hp
            obtain ⟨h1, pre, d, tail, heq, hd⟩ :=
              ih none (by intro c hc; cases hc) p hp
            refine ⟨h1, r :: pre, d, tail, ?_, hd⟩
            simp [curReadings] at heq ⊢
            rw [heq]
        | some c =>
            have hstep : (scanPeriods speedOf threshold minDur farmName
                (some c) (r :: rest)).1 =
                (if minDur ≤ (closePeriod speedOf c r.timestamp).durationHours
                  then [closePeriod speedOf c r.timestamp] else []) ++
                (scanPeriods speedOf threshold minDur farmName none rest).1 := by
              simp [scanPeriods, hq]
            rw [hstep] at hp
            rcases List.mem_append.mp hp with hp | hp
            · have hpc : p = closePeriod speedOf c r.timestamp := by
                by_cases hdur :
                    minDur ≤ (closePeriod speedOf c r.timestamp).durationHours
                · simpa [hdur] using hp
                · simp [hdur] at hp
              subst hpc
              refine ⟨?_, [], r, rest, ?_, lt_of_not_le hq⟩
              · intro x hx
                exact hcur c rfl x (by simpa [closePeriod] using hx)
              · simp [curReadings, closePeriod]
            · obtain ⟨h1, pre, d, tail, heq, hd⟩ :=
                ih none (by intro c' hc; cases hc) p hp
              refine ⟨h1, c.readings ++ r :: pre, d, tail, ?_, hd⟩
              simp [curReadings] at heq ⊢
              rw [heq]

/-- The open period left at the end of the scan consists of qualifying
readings forming a non-empty suffix of the scanned input. -/
theorem scanPeriods_final_cur_sound (speedOf : Reading → ℚ)
    (threshold minDur : ℚ) (farmName : String) (data : List Reading) :
    ∀ (cur : Option CurrentPeriod),
      (∀ c, cur = some c →
        (∀ r ∈ c.readings, threshold ≤ speedOf r) ∧ c.readings ≠ []) →
      ∀ c', (scanPeriods speedOf threshold minDur farmName cur data).2 =
          some c' →
        (∀ r ∈ c'.readings, threshold ≤ speedOf r) ∧ c'.readings ≠ [] ∧
        ∃ pre, curReadings cur ++ data = pre ++ c'.readings := by
  induction data with
  | nil =>
      intro cur hcur c' hc'
      simp [scanPeriods] at hc'
      subst hc'
      exact ⟨(hcur c' rfl).1, (hcur c' rfl).2, [], by simp [curReadings]⟩
  | cons r rest ih =>
      intro cur hcur c' hc'
      by_cases hq : threshold ≤ speedOf r
      · cases cur with
        | none =>
            rw [show scanPeriods speedOf threshold minDur farmName none
                  (r :: rest) =
                scanPeriods speedOf threshold minDur farmName
                  (some (initPeriod speedOf farmName r)) rest from by
                  simp [scanPeriods, hq]] at hc'
            have hcur' : ∀ c, some (initPeriod speedOf farmName r) = some c →
                (∀ x ∈ c.readings, threshold ≤ speedOf x) ∧ c.readings ≠ [] := by
              intro c hc
              cases hc
              refine ⟨?_, by simp [initPeriod]⟩
              intro x hx
              simp [initPeriod] at hx
              simpa [hx] using hq
            obtain ⟨h1, h2, pre, heq⟩ := ih _ hcur' c' hc'
            exact ⟨h1, h2, pre, by simpa [curReadings, initPeriod] using heq⟩
        | some c =>
            rw [show scanPeriods speedOf threshold minDur farmName (some c)
                  (r :: rest) =
                scanPeriods speedOf threshold minDur farmName
                  (some (pushReading speedOf c r)) rest from by
                  simp [scanPeriods, hq]] at hc'
            have hcur' : ∀ c'', some (pushReading speedOf c r) = some c'' →
                (∀ x ∈ c''.readings, threshold ≤ speedOf x) ∧
                  c''.readings ≠ [] := by
              intro c'' hc
              cases hc
              refine ⟨?_, by simp [pushReading]⟩
              intro x hx
              simp [pushReading] at hx
              rcases hx with hx | hx
              · exact (hcur c rfl).1 x hx
              · simpa [hx] using hq
            obtain ⟨h1, h2, pre, heq⟩ := ih _ hcur' c' hc'
            refine ⟨h1, h2, pre, ?_⟩
            simp [curReadings, pushReading] at heq ⊢
            rw [heq]
      · cases cur with
        | none =>
            rw [show scanPeriods speedOf threshold minDur farmName none
                  (r :: rest) =
                scanPeriods speedOf threshold minDur farmName none rest from by
                  simp [scanPeriods, hq]] at hc'
            obtain ⟨h1, h2, pre, heq⟩ :=
              ih none (by intro c hc; cases hc) c' hc'
            refine ⟨h1, h2, r :: pre, ?_⟩
            simp [curReadings] at heq ⊢
            rw [heq]
        | some c =>
            have hstep : (scanPeriods speedOf threshold minDur farmName
                (some c) (r :: rest)).2 =
                (scanPeriods speedOf threshold minDur farmName none rest).2 := by
              simp [scanPeriods, hq]
            rw [hstep] at hc'
            obtain ⟨h1, h2, pre, heq⟩ :=
              ih none (by intro c'' hc; cases hc) c' hc'
            refine ⟨h1, h2, c.readings ++ r :: pre, ?_⟩
            simp [curReadings] at heq ⊢
            rw [heq]

/-! ## Worked-example data (spec section 8)

Hourly readings from 00:00 to 23:00, hub-height speed 70 km/h from 02:00
through 07:00 and 50 km/h at every other hour. -/

/-- The reading at hour `h` of the worked example. -/
def exampleReadingAt (h : ℕ) : Reading :=
  { timestamp := (h : ℚ)
    windSpeedKmh := 0
    windSpeed100mKmh := if 2 ≤ h ∧ h ≤ 7 then 70 else 50
    windGustsKmh := 0
    windDirection := 0
    temperature := 0
    humidity := 0
    pressure := 0 }

/-- The 24 hourly readings of the worked example. -/
def exampleData : List Reading :=
  (List.range 24).map exampleReadingAt

/-- The single period the detector emits on the worked example. -/
def examplePeriod : StrongWindPeriod :=
  { startTime := 2
    startWindSpeed := 70
    maxWindSpeed := 70
    readings := (List.range 6).map (fun i => exampleReadingAt (i + 2))
    windFarm := "Example Farm"
    endTime := 8
    durationHours := 6
    avgWindSpeed := 70 }

/-- C1: every Period emitted by the strong-wind period detector contains
only readings whose tested speed is at least the threshold (the
comparison is greater-or-equal), and the reading immediately following
the period in the input, if one exists, has tested speed strictly below
the threshold. -/
theorem emitted_periods_qualify_and_followed_by_lull
    (speedOf : Reading → ℚ) (threshold minDur : ℚ) (farmName : String)
    (data : List Reading) (p : StrongWindPeriod)
    (hp : p ∈ findStrongWindPeriods speedOf threshold minDur farmName data) :
    (∀ r ∈ p.readings, threshold ≤ speedOf r) ∧
    ∃ pre rest, data = pre ++ p.readings ++ rest ∧
      ∀ d, rest.head? = some d → speedOf d < threshold := by
  have hnone : ∀ c : CurrentPeriod, (none : Option CurrentPeriod) = some c →
      ∀ r ∈ c.readings, threshold ≤ speedOf r := by
    intro c hc
    cases hc
  have hnone' : ∀ c : CurrentPeriod, (none : Option CurrentPeriod) = some c →
      (∀ r ∈ c.readings, threshold ≤ speedOf r) ∧ c.readings ≠ [] := by
    intro c hc
    cases hc
  have hmid : ∀ q ∈ (scanPeriods speedOf threshold minDur farmName
      none data).1,
      (∀ r ∈ q.readings, threshold ≤ speedOf r) ∧
      ∃ pre rest, data = pre ++ q.readings ++ rest ∧
        ∀ d, rest.head? = some d → speedOf d < threshold := by
    intro q hq
    obtain ⟨h1, pre, d, tail, heq, hd⟩ :=
      scanPeriods_emitted_sound speedOf threshold minDur farmName data
        none hnone q hq
    refine ⟨h1, pre, d :: tail, by simpa [curReadings] using heq, ?_⟩
    intro d' hd'
    simp at hd'
    subst hd'
    exact hd
  rcases hs2 : (scanPeriods speedOf threshold minDur farmName none data).2
    with _ | c
  · rcases hlast : data.getLast? with _ | last <;>
      simp only [findStrongWindPeriods, hs2, hlast] at hp <;>
      exact hmid p hp
  · rcases hlast : data.getLast? with _ | last
    · simp only [findStrongWindPeriods, hs2, hlast] at hp
      exact hmid p hp
    · simp only [findStrongWindPeriods, hs2, hlast] at hp
      by_cases hdur : minDur ≤
          (closePeriod speedOf c last.timestamp).durationHours
      · rw [if_pos hdur] at hp
        rcases List.mem_append.mp hp with hp | hp
        · exact hmid p hp
        · have hpc : p = closePeriod speedOf c last.timestamp := by
            simpa using hp
          subst hpc
          obtain ⟨h1, _hne, pre, heq⟩ :=
            scanPeriods_final_cur_sound speedOf threshold minDur farmName
              data none hnone' c hs2
          refine ⟨by simpa [closePeriod] using h1, pre, [], ?_, ?_⟩
          · simpa [curReadings, closePeriod] using heq
          · intro d hd
            simp at hd
      · rw [if_neg hdur] at hp
        exact hmid p hp

unseal Rat.mul Rat.inv Rat.add Rat.sub in
/-- C2: on the worked-example data with threshold 60 and minimum duration
6, the detector emits exactly one period, with start 02:00, end 08:00
(the timestamp of the first sub-threshold reading), duration 6 hours and
maximum speed 70. -/
theorem worked_example_single_period :
    findStrongWindPeriods (fun r => r.windSpeed100mKmh) 60 6 "Example Farm"
      exampleData = [examplePeriod] ∧
    examplePeriod.startTime = 2 ∧ examplePeriod.endTime = 8 ∧
    examplePeriod.durationHours = 6 ∧ examplePeriod.maxWindSpeed = 70 := by
  refine ⟨by decide, rfl, rfl, rfl, rfl⟩

/-- The filtered scan is the raw scan with the duration filter applied to
the emitted periods; the open-period state is unaffected by the filter. -/
theorem scanPeriods_eq_filter_raw (speedOf : Reading → ℚ)
    (threshold minDur : ℚ) (farmName : String) (data : List Reading) :
    ∀ cur : Option CurrentPeriod,
      scanPeriods speedOf threshold minDur farmName cur data =
        ((scanPeriodsRaw speedOf threshold farmName cur data).1.filter
            (fun p => minDur ≤ p.durationHours),
         (scanPeriodsRaw speedOf threshold farmName cur data).2) := by
  induction data with
  | nil => intro cur; simp [scanPeriods, scanPeriodsRaw]
  | cons r rest ih =>
      intro cur
      by_cases hq : threshold ≤ speedOf r
      · cases cur with
        | none => simpa [scanPeriods, scanPeriodsRaw, hq] using ih _
        | some c => simpa [scanPeriods, scanPeriodsRaw, hq] using ih _
      · cases cur with
        | none => simpa [scanPeriods, scanPeriodsRaw, hq] using ih _
        | some c =>
            rw [show scanPeriods speedOf threshold minDur farmName (some c)
                  (r :: rest) =
                ((if minDur ≤ (closePeriod speedOf c r.timestamp).durationHours
                    then [closePeriod speedOf c r.timestamp] else []) ++
                  (scanPeriods speedOf threshold minDur farmName none rest).1,
                 (scanPeriods speedOf threshold minDur farmName none rest).2)
                from by simp [scanPeriods, hq]]
            rw [show scanPeriodsRaw speedOf threshold farmName (some c)
                  (r :: rest) =
                (closePeriod speedOf c r.timestamp ::
                  (scanPeriodsRaw speedOf threshold farmName none rest).1,
                 (scanPeriodsRaw speedOf threshold farmName none rest).2)
                from by simp [scanPeriodsRaw, hq]]
            rw [ih none]
            by_cases hdur :
                minDur ≤ (closePeriod speedOf c r.timestamp).durationHours <;>
              simp [List.filter_cons, hdur]

/-- The whole detector is the raw detector filtered by minimum duration. -/
theorem findStrongWindPeriods_eq_filter_raw (speedOf : Reading → ℚ)
    (threshold minDur : ℚ) (farmName : String) (data : List Reading) :
    findStrongWindPeriods speedOf threshold minDur farmName data =
      (findStrongWindPeriodsRaw speedOf threshold farmName data).filter
        (fun p => minDur ≤ p.durationHours) := by
  unfold findStrongWindPeriods findStrongWindPeriodsRaw
  rw [scanPeriods_eq_filter_raw]
  rcases h2 : (scanPeriodsRaw speedOf threshold farmName none data).2
    with _ | c
  · rcases hlast : data.getLast? with _ | last <;> simp [h2, hlast]
  · rcases hlast : data.getLast? with _ | last
    · simp [h2, hlast]
    · by_cases hdur :
          minDur ≤ (closePeriod speedOf c last.timestamp).durationHours <;>
        simp [h2, hlast, List.filter_append, List.filter_cons, hdur]

/-- Periods emitted inside the loop appear in the detector's output. -/
theorem mem_scan_mem_find (speedOf : Reading → ℚ) (threshold minDur : ℚ)
    (farmName : String) (data : List Reading) (p : StrongWindPeriod)
    (hp : p ∈ (scanPeriods speedOf threshold minDur farmName none data).1) :
    p ∈ findStrongWindPeriods speedOf threshold minDur farmName data := by
  unfold findStrongWindPeriods
  rcases h2 : (scanPeriods speedOf threshold minDur farmName none data).2
    with _ | c
  · rcases hlast : data.getLast? with _ | last <;> simpa [h2, hlast] using hp
  · rcases hlast : data.getLast? with _ | last
    · simpa [h2, hlast] using hp
    · by_cases hdur :
          minDur ≤ (closePeriod speedOf c last.timestamp).durationHours
      · simp [h2, hlast, hdur]
        exact Or.inl hp
      · simpa [h2, hlast, hdur] using hp

/-- When the scan leaves an open period and the closing duration passes
the filter, the detector's output is the loop output followed by the
period closed at the final reading's timestamp. -/
theorem findStrongWindPeriods_closeEnd (speedOf : Reading → ℚ)
    (threshold minDur : ℚ) (farmName : String) (data : List Reading)
    (c : CurrentPeriod) (last : Reading)
    (h2 : (scanPeriods speedOf threshold minDur farmName none data).2 =
      some c)
    (hlast : data.getLast? = some last)
    (hdur : minDur ≤ last.timestamp - c.startTime) :
    findStrongWindPeriods speedOf threshold minDur farmName data =
      (scanPeriods speedOf threshold minDur farmName none data).1 ++
        [closePeriod speedOf c last.timestamp] := by
  unfold findStrongWindPeriods
  simp only [h2, hlast]
  rw [if_pos (by simpa [closePeriod] using hdur)]

unseal Rat.mul Rat.inv Rat.add Rat.sub in
/-- C3: with minimum duration 0 every maximal qualifying run of length at
least one is emitted as a period; increasing the minimum duration never
increases the number of emitted periods; and on the worked-example data a
minimum duration of 7 yields zero periods. -/
theorem minDuration_zero_complete_and_filter_antitone
    (speedOf : Reading → ℚ) (threshold : ℚ) (farmName : String)
    (data : List Reading) :
    (data.Pairwise (fun a b => a.timestamp ≤ b.timestamp) →
      ∀ pre run post, data = pre ++ run ++ post → run ≠ [] →
        (∀ r ∈ run, threshold ≤ speedOf r) →
        (pre = [] ∨ ∃ d, pre.getLast? = some d ∧ speedOf d < threshold) →
        (post = [] ∨ ∃ d tail, post = d :: tail ∧ speedOf d < threshold) →
        ∃ p ∈ findStrongWindPeriods speedOf threshold 0 farmName data,
          p.readings = run) ∧
    (∀ m₁ m₂ : ℚ, m₁ ≤ m₂ →
      (findStrongWindPeriods speedOf threshold m₂ farmName data).length ≤
        (findStrongWindPeriods speedOf threshold m₁ farmName data).length) ∧
    findStrongWindPeriods (fun r => r.windSpeed100mKmh) 60 7 "Example Farm"
      exampleData = [] := by
  refine ⟨?_, ?_, ?_⟩
  · intro hsort pre run post hdata hne hqual hpre hpost
    obtain ⟨r₀, runTail, rfl⟩ : ∃ r₀ runTail, run = r₀ :: runTail := by
      cases run with
      | nil => cases hne rfl
      | cons a l => exact ⟨a, l, rfl⟩
    subst hdata
    have hq0 : threshold ≤ speedOf r₀ := hqual _ (List.mem_cons_self _ _)
    have hpre2 : ∀ m : ℚ,
        (scanPeriods speedOf threshold m farmName none pre).2 = none := by
      intro m
      rcases hpre with rfl | ⟨d, hd, hdlt⟩
      · simp [scanPeriods]
      · obtain ⟨pre', rfl⟩ := List.getLast?_eq_some_iff.mp hd
        exact scanPeriods_ends_below speedOf threshold m farmName pre' d
          (not_le.mpr hdlt) none
    have hrunscan : ∀ m : ℚ,
        scanPeriods speedOf threshold m farmName none (r₀ :: runTail) =
          ([], some (extendPeriod speedOf (initPeriod speedOf farmName r₀)
            runTail)) := by
      intro m
      rw [show scanPeriods speedOf threshold m farmName none (r₀ :: runTail) =
          scanPeriods speedOf threshold m farmName
            (some (initPeriod speedOf farmName r₀)) runTail from by
            simp [scanPeriods, hq0]]
      exact scanPeriods_qualifying_run speedOf threshold m farmName runTail _
        (fun r hr => hqual r (List.mem_cons_of_mem _ hr))
    have hc'readings :
        (extendPeriod speedOf (initPeriod speedOf farmName r₀)
          runTail).readings = r₀ :: runTail := by
      rw [extendPeriod_readings]
      simp [initPeriod]
    have hc'start :
        (extendPeriod speedOf (initPeriod speedOf farmName r₀)
          runTail).startTime = r₀.timestamp := by
      rw [extendPeriod_startTime]
      rfl
    rcases hpost with rfl | ⟨d, postTail, rfl, hdlt⟩
    · -- the run reaches the end of the supplied data
      have hscan : scanPeriods speedOf threshold 0 farmName none
          (pre ++ (r₀ :: runTail) ++ []) =
          ((scanPeriods speedOf threshold 0 farmName none pre).1,
            some (extendPeriod speedOf (initPeriod speedOf farmName r₀)
              runTail)) := by
        rw [List.append_nil, scanPeriods_append, hpre2, hrunscan]
        simp
      have hne' : r₀ :: runTail ≠ [] := List.cons_ne_nil _ _
      have hlast : (pre ++ (r₀ :: runTail) ++ []).getLast? =
          some ((r₀ :: runTail).getLast hne') := by
        rw [List.append_nil, List.getLast?_append_of_ne_nil _ hne',
          List.getLast?_eq_getLast _ hne']
      have hdur : (0 : ℚ) ≤
          ((r₀ :: runTail).getLast hne').timestamp - r₀.timestamp := by
        have hpw : (r₀ :: runTail).Pairwise
            (fun a b => a.timestamp ≤ b.timestamp) := by
          refine List.Pairwise.sublist ?_ hsort
          simp only [List.append_nil]
          exact List.sublist_append_right pre (r₀ :: runTail)
        have hmem := List.getLast_mem hne'
        rcases List.mem_cons.mp hmem with heq | hmem'
        · rw [heq]
          simp
        · have h := (List.pairwise_cons.mp hpw).1 _ hmem'
          linarith
      refine ⟨closePeriod speedOf
        (extendPeriod speedOf (initPeriod speedOf farmName r₀) runTail)
        ((r₀ :: runTail).getLast hne').timestamp, ?_, ?_⟩
      · rw [findStrongWindPeriods_closeEnd speedOf threshold 0 farmName _ _ _
          (by rw [hscan]) hlast (by rw [hc'start]; exact hdur)]
        simp
      · simpa [closePeriod] using hc'readings
    · -- the run is closed by the first disqualifying reading after it
      have hdur : (0 : ℚ) ≤ d.timestamp - r₀.timestamp := by
        have h := (List.pairwise_append.mp hsort).2.2 r₀ (by simp) d
          (List.mem_cons_self _ _)
        linarith
      have hclose : scanPeriods speedOf threshold 0 farmName
          (some (extendPeriod speedOf (initPeriod speedOf farmName r₀)
            runTail)) (d :: postTail) =
          (closePeriod speedOf
              (extendPeriod speedOf (initPeriod speedOf farmName r₀) runTail)
              d.timestamp ::
            (scanPeriods speedOf threshold 0 farmName none postTail).1,
           (scanPeriods speedOf threshold 0 farmName none postTail).2) := by
        rw [show scanPeriods speedOf threshold 0 farmName
            (some (extendPeriod speedOf (initPeriod speedOf farmName r₀)
              runTail)) (d :: postTail) =
            ((if (0:ℚ) ≤ (closePeriod speedOf
                (extendPeriod speedOf (initPeriod speedOf farmName r₀)
                  runTail) d.timestamp).durationHours
              then [closePeriod speedOf
                (extendPeriod speedOf (initPeriod speedOf farmName r₀)
                  runTail) d.timestamp] else []) ++
              (scanPeriods speedOf threshold 0 farmName none postTail).1,
             (scanPeriods speedOf threshold 0 farmName none postTail).2)
            from by simp [scanPeriods, not_le.mpr hdlt]]
        rw [if_pos (by simpa [closePeriod, hc'start] using hdur)]
        simp
      refine ⟨closePeriod speedOf
        (extendPeriod speedOf (initPeriod speedOf farmName r₀) runTail)
        d.timestamp, ?_, by simpa [closePeriod] using hc'readings⟩
      apply mem_scan_mem_find
      rw [scanPeriods_append, scanPeriods_append, hpre2 0, hrunscan 0]
      simp [hclose]
  · intro m₁ m₂ hm
    rw [findStrongWindPeriods_eq_filter_raw,
      findStrongWindPeriods_eq_filter_raw,
      ← List.countP_eq_length_filter, ← List.countP_eq_length_filter]
    refine List.countP_mono_left ?_
    intro p _ h2
    simp only [decide_eq_true_eq] at h2 ⊢
    linarith
  · decide

unseal Rat.mul Rat.inv Rat.add Rat.sub in
/-- Witness for C1: the invariant instantiated on the worked example. -/
theorem emitted_periods_qualify_witness :
    (∀ r ∈ examplePeriod.readings, (60 : ℚ) ≤ r.windSpeed100mKmh) ∧
    ∃ pre rest, exampleData = pre ++ examplePeriod.readings ++ rest ∧
      ∀ d, rest.head? = some d → d.windSpeed100mKmh < 60 :=
  emitted_periods_qualify_and_followed_by_lull
    (fun r => r.windSpeed100mKmh) 60 6 "Example Farm" exampleData
    examplePeriod (by decide)

unseal Rat.mul Rat.inv Rat.add Rat.sub in
/-- Witness for C3: the maximal run 02:00 through 07:00 of the worked
example is emitted at minimum duration 0. -/
theorem minDuration_zero_complete_witness :
    ∃ p ∈ findStrongWindPeriods (fun r => r.windSpeed100mKmh) 60 0
        "Example Farm" exampleData,
      p.readings = (List.range 6).map (fun i => exampleReadingAt (i + 2)) :=
  (minDuration_zero_complete_and_filter_antitone
      (fun r => r.windSpeed100mKmh) 60 "Example Farm" exampleData).1
    (by decide)
    ((List.range 2).map exampleReadingAt)
    ((List.range 6).map (fun i => exampleReadingAt (i + 2)))
    ((List.range 16).map (fun i => exampleReadingAt (i + 8)))
    (by decide) (by decide) (by decide)
    (Or.inr ⟨exampleReadingAt 1, by decide, by decide⟩)
    (Or.inr ⟨exampleReadingAt 8,
      (List.range 15).map (fun i => exampleReadingAt (i + 9)),
      by decide, by decide⟩)

/-- A scan starting with no open period over readings that either are
empty or end with a disqualifying reading leaves no open period. -/
theorem scanPeriods_boundary_none (speedOf : Reading → ℚ)
    (threshold minDur : ℚ) (farmName : String) (pre : List Reading)
    (hpre : pre = [] ∨ ∃ d, pre.getLast? = some d ∧ speedOf d < threshold) :
    (scanPeriods speedOf threshold minDur farmName none pre).2 = none := by
  rcases hpre with rfl | ⟨d, hd, hdlt⟩
  · simp [scanPeriods]
  · obtain ⟨pre', rfl⟩ := List.getLast?_eq_some_iff.mp hd
    exact scanPeriods_ends_below speedOf threshold minDur farmName pre' d
      (not_le.mpr hdlt) none

/-- C4: when the final reading of the data qualifies, so that the active
run extends to the end of the supplied data, the detector closes that
final period with end equal to the last reading's own timestamp, computes
its duration and maximum/average statistics over the collected readings,
and emits it exactly when the duration passes the minimum-duration
filter; a run consisting of only the final reading has duration zero. -/
theorem final_run_closed_at_last_reading (speedOf : Reading → ℚ)
    (threshold minDur : ℚ) (farmName : String) (pre run : List Reading)
    (hne : run ≠ []) (hqual : ∀ r ∈ run, threshold ≤ speedOf r)
    (hpre : pre = [] ∨ ∃ d, pre.getLast? = some d ∧ speedOf d < threshold) :
    ∃ p : StrongWindPeriod,
      p.readings = run ∧
      p.startTime = (run.head hne).timestamp ∧
      p.endTime = (run.getLast hne).timestamp ∧
      p.durationHours =
        (run.getLast hne).timestamp - (run.head hne).timestamp ∧
      p.maxWindSpeed = run.tail.foldl (fun m r => max m (speedOf r))
        (speedOf (run.head hne)) ∧
      p.avgWindSpeed = (run.map speedOf).sum / run.length ∧
      findStrongWindPeriods speedOf threshold minDur farmName (pre ++ run) =
        (scanPeriods speedOf threshold minDur farmName none pre).1 ++
          (if minDur ≤ p.durationHours then [p] else []) ∧
      (run.length = 1 → p.durationHours = 0) := by
  obtain ⟨r₀, runTail, rfl⟩ : ∃ r₀ runTail, run = r₀ :: runTail := by
    cases run with
    | nil => cases hne rfl
    | cons a l => exact ⟨a, l, rfl⟩
  have hq0 : threshold ≤ speedOf r₀ := hqual _ (List.mem_cons_self _ _)
  have hpre2 := scanPeriods_boundary_none speedOf threshold minDur farmName
    pre hpre
  have hrunscan :
      scanPeriods speedOf threshold minDur farmName none (r₀ :: runTail) =
        ([], some (extendPeriod speedOf (initPeriod speedOf farmName r₀)
          runTail)) := by
    rw [show scanPeriods speedOf threshold minDur farmName none
        (r₀ :: runTail) =
        scanPeriods speedOf threshold minDur farmName
          (some (initPeriod speedOf farmName r₀)) runTail from by
          simp [scanPeriods, hq0]]
    exact scanPeriods_qualifying_run speedOf threshold minDur farmName
      runTail _ (fun r hr => hqual r (List.mem_cons_of_mem _ hr))
  have hscan1 : (scanPeriods speedOf threshold minDur farmName none
      (pre ++ r₀ :: runTail)).1 =
      (scanPeriods speedOf threshold minDur farmName none pre).1 := by
    rw [scanPeriods_append, hpre2, hrunscan]
    simp
  have hscan2 : (scanPeriods speedOf threshold minDur farmName none
      (pre ++ r₀ :: runTail)).2 =
      some (extendPeriod speedOf (initPeriod speedOf farmName r₀)
        runTail) := by
    rw [scanPeriods_append, hpre2, hrunscan]
  have hlastEq : (pre ++ r₀ :: runTail).getLast? =
      some ((r₀ :: runTail).getLast hne) := by
    rw [List.getLast?_append_of_ne_nil _ hne,
      List.getLast?_eq_getLast _ hne]
  have hreadings :
      (extendPeriod speedOf (initPeriod speedOf farmName r₀)
        runTail).readings = r₀ :: runTail := by
    rw [extendPeriod_readings]
    simp [initPeriod]
  have hstart :
      (extendPeriod speedOf (initPeriod speedOf farmName r₀)
        runTail).startTime = r₀.timestamp := by
    rw [extendPeriod_startTime]
    rfl
  refine ⟨closePeriod speedOf
    (extendPeriod speedOf (initPeriod speedOf farmName r₀) runTail)
    ((r₀ :: runTail).getLast hne).timestamp,
    by simpa [closePeriod] using hreadings,
    by simpa [closePeriod] using hstart,
    by simp [closePeriod],
    by simp [closePeriod, hstart],
    ?_,
    by simp [closePeriod, hreadings],
    ?_, ?_⟩
  · rw [show (closePeriod speedOf
      (extendPeriod speedOf (initPeriod speedOf farmName r₀) runTail)
      ((r₀ :: runTail).getLast hne).timestamp).maxWindSpeed =
      (extendPeriod speedOf (initPeriod speedOf farmName r₀)
        runTail).maxWindSpeed from rfl]
    rw [extendPeriod_maxWindSpeed]
    rfl
  · unfold findStrongWindPeriods
    simp only [hscan2, hlastEq]
    by_cases hdur : minDur ≤ (closePeriod speedOf
        (extendPeriod speedOf (initPeriod speedOf farmName r₀) runTail)
        ((r₀ :: runTail).getLast hne).timestamp).durationHours
    · rw [if_pos hdur, if_pos hdur, hscan1]
    · rw [if_neg hdur, if_neg hdur, hscan1, List.append_nil]
  · intro hlen
    obtain ⟨a, ha⟩ := List.length_eq_one.mp hlen
    have ha0 : r₀ = a := by
      have := congrArg (fun l => l.head?) ha
      simpa using this
    have htail : runTail = [] := by
      have := congrArg (fun l => l.tail) ha
      simpa using this
    subst htail
    subst ha0
    simp [closePeriod, hstart]

unseal Rat.mul Rat.inv Rat.add Rat.sub in
/-- Witness for C4 on a two-reading final run preceded by a lull. -/
theorem final_run_closed_witness :
    ∃ p : StrongWindPeriod,
      p.readings = [exampleReadingAt 2, exampleReadingAt 3] ∧
      p.startTime = (exampleReadingAt 2).timestamp ∧
      p.endTime = (exampleReadingAt 3).timestamp ∧
      p.durationHours =
        (exampleReadingAt 3).timestamp - (exampleReadingAt 2).timestamp ∧
      p.maxWindSpeed = [exampleReadingAt 3].foldl
        (fun m r => max m r.windSpeed100mKmh)
        (exampleReadingAt 2).windSpeed100mKmh ∧
      p.avgWindSpeed =
        (([exampleReadingAt 2, exampleReadingAt 3].map
          (fun r => r.windSpeed100mKmh)).sum : ℚ) / 2 ∧
      findStrongWindPeriods (fun r => r.windSpeed100mKmh) 60 6
          "Example Farm"
          ([exampleReadingAt 0] ++ [exampleReadingAt 2, exampleReadingAt 3]) =
        (scanPeriods (fun r => r.windSpeed100mKmh) 60 6 "Example Farm" none
          [exampleReadingAt 0]).1 ++
          (if (6 : ℚ) ≤ p.durationHours then [p] else []) ∧
      ([exampleReadingAt 2, exampleReadingAt 3].length = 1 →
        p.durationHours = 0) :=
  final_run_closed_at_last_reading (fun r => r.windSpeed100mKmh) 60 6
    "Example Farm" [exampleReadingAt 0]
    [exampleReadingAt 2, exampleReadingAt 3] (by decide) (by decide)
    (Or.inr ⟨exampleReadingAt 0, by decide, by decide⟩)

/-! ## Directional bucketing (C7) -/

/-- For any non-negative direction the bucket index is one of 0..15, so
`getWindDirection` returns one of the 16 sector names. -/
theorem getWindDirection_mem (d : ℚ) (h0 : 0 ≤ d) :
    ∃ name ∈ directionNames, getWindDirection d = some name := by
  have hround : 0 ≤ jsRound (d / (45/2)) := by
    have hq : (0 : ℚ) ≤ d / (45/2) := by positivity
    exact Int.floor_nonneg.mpr (by linarith)
  have hmod0 : 0 ≤ (jsRound (d / (45/2))).tmod 16 :=
    Int.tmod_nonneg 16 hround
  have hmod1 : (jsRound (d / (45/2))).tmod 16 < 16 :=
    Int.tmod_lt_of_pos _ (by norm_num)
  have hlt : ((jsRound (d / (45/2))).tmod 16).toNat <
      directionNames.length := by
    rw [show directionNames.length = 16 from rfl]
    omega
  obtain ⟨name, hname⟩ : ∃ name,
      directionNames.get? ((jsRound (d / (45/2))).tmod 16).toNat =
        some name := ⟨_, List.get?_eq_get hlt⟩
  refine ⟨name, List.get?_mem hname, ?_⟩
  rw [getWindDirection, jsIndex, if_pos hmod0]
  exact hname

unseal Rat.mul Rat.inv Rat.add Rat.sub in
/-- C7: the direction-to-bucket mapping is total and exhaustive on
[0, 360]: every direction in that interval maps to exactly one of the 16
compass sector names, and the boundary values 0 and 360 both map to
"N". -/
theorem direction_bucketing_total (d : ℚ) (h0 : 0 ≤ d) (_h1 : d ≤ 360) :
    (∃ name ∈ directionNames, getWindDirection d = some name) ∧
    getWindDirection 0 = some "N" ∧ getWindDirection 360 = some "N" :=
  ⟨getWindDirection_mem d h0, by decide, by decide⟩

/-- Witness for C7 at direction 100. -/
theorem direction_bucketing_total_witness :
    (0 : ℚ) ≤ 100 ∧ (100 : ℚ) ≤ 360 ∧
    ((∃ name ∈ directionNames, getWindDirection 100 = some name) ∧
      getWindDirection 0 = some "N" ∧ getWindDirection 360 = some "N") :=
  ⟨by norm_num, by norm_num,
    direction_bucketing_total 100 (by norm_num) (by norm_num)⟩

/-! ## Single-series distributions (`WindAnalysisService`)

`calculateHourlyDistribution`, `calculateDailyDistribution` and
`calculateWindRose` accumulate per-bucket statistics and then derive
averages/percentages. JS objects keyed by hour/date/direction become a
function on `Fin 24`, an association list keyed by day index, and an
association list keyed by the 16 sector names, preserving insertion
order. -/

/-- `this.strongWindThreshold` of `WindAnalysisService`. -/
def strongWindThreshold : ℚ := 60

/-- `this.extremeWindThreshold` of `WindAnalysisService`. -/
def extremeWindThreshold : ℚ := 100

/-- One hour-of-day accumulator bucket as initialized in
`calculateHourlyDistribution`. -/
structure HourlyBucket where
  count : ℕ
  strongWindCount : ℕ
  extremeWindCount : ℕ
  totalWindSpeed : ℚ
  totalWindSpeed100m : ℚ
  totalWindGusts : ℚ
  maxWindSpeed : ℚ
  maxWindSpeed100m : ℚ
  maxWindGusts : ℚ
deriving DecidableEq, Repr

/-- The all-zero initial hourly bucket. -/
def initHourlyBucket : HourlyBucket :=
  { count := 0, strongWindCount := 0, extremeWindCount := 0
    totalWindSpeed := 0, totalWindSpeed100m := 0, totalWindGusts := 0
    maxWindSpeed := 0, maxWindSpeed100m := 0, maxWindGusts := 0 }

/-- The per-reading update of an hourly bucket. -/
def hourlyAdd (b : HourlyBucket) (r : Reading) : HourlyBucket :=
  { count := b.count + 1
    strongWindCount :=
      if strongWindThreshold ≤ r.windSpeedKmh then b.strongWindCount + 1
      else b.strongWindCount
    extremeWindCount :=
      if extremeWindThreshold ≤ r.windSpeedKmh then b.extremeWindCount + 1
      else b.extremeWindCount
    totalWindSpeed := b.totalWindSpeed + r.windSpeedKmh
    totalWindSpeed100m := b.totalWindSpeed100m + r.windSpeed100mKmh
    totalWindGusts := b.totalWindGusts + r.windGustsKmh
    maxWindSpeed := max b.maxWindSpeed r.windSpeedKmh
    maxWindSpeed100m := max b.maxWindSpeed100m r.windSpeed100mKmh
    maxWindGusts := max b.maxWindGusts r.windGustsKmh }

/-- The accumulation loop of `calculateHourlyDistribution`. -/
def hourlyAccum (data : List Reading) : Fin 24 → HourlyBucket :=
  data.foldl
    (fun stats r =>
      Function.update stats (hourOf r.timestamp)
        (hourlyAdd (stats (hourOf r.timestamp)) r))
    (fun _ => initHourlyBucket)

/-- An hourly bucket after the "Calculate averages" pass. -/
structure HourlyFinal where
  count : ℕ
  strongWindCount : ℕ
  extremeWindCount : ℕ
  totalWindSpeed : ℚ
  totalWindSpeed100m : ℚ
  totalWindGusts : ℚ
  maxWindSpeed : ℚ
  maxWindSpeed100m : ℚ
  maxWindGusts : ℚ
  avgWindSpeed : ℚ
  avgWindSpeed100m : ℚ
  avgWindGusts : ℚ
  strongWindPercentage : ℚ
  extremeWindPercentage : ℚ
deriving DecidableEq, Repr

/-- Deriving the averages and percentages of an hourly bucket; buckets
with zero readings report zero. -/
def finalizeHourly (b : HourlyBucket) : HourlyFinal :=
  { count := b.count
    strongWindCount := b.strongWindCount
    extremeWindCount := b.extremeWindCount
    totalWindSpeed := b.totalWindSpeed
    totalWindSpeed100m := b.totalWindSpeed100m
    totalWindGusts := b.totalWindGusts
    maxWindSpeed := b.maxWindSpeed
    maxWindSpeed100m := b.maxWindSpeed100m
    maxWindGusts := b.maxWindGusts
    avgWindSpeed := if 0 < b.count then b.totalWindSpeed / b.count else 0
    avgWindSpeed100m :=
      if 0 < b.count then b.totalWindSpeed100m / b.count else 0
    avgWindGusts := if 0 < b.count then b.totalWindGusts / b.count else 0
    strongWindPercentage :=
      if 0 < b.count then (b.strongWindCount : ℚ) / b.count * 100 else 0
    extremeWindPercentage :=
      if 0 < b.count then (b.extremeWindCount : ℚ) / b.count * 100 else 0 }

/-- Model of `WindAnalysisService.calculateHourlyDistribution`. -/
def calculateHourlyDistribution (data : List Reading) :
    Fin 24 → HourlyFinal :=
  fun h => finalizeHourly (hourlyAccum data h)

/-! ### Association-list helpers for object-keyed accumulators -/

/-- Whether the key is present in the association list. -/
def hasKey {κ β : Type} [DecidableEq κ] (l : List (κ × β)) (k : κ) : Bool :=
  l.any (fun e => e.1 = k)

/-- Mutating the entry under the key (first occurrence); the list is
unchanged when the key is absent. -/
def updateFirst {κ β : Type} [DecidableEq κ] (l : List (κ × β)) (k : κ)
    (f : β → β) : List (κ × β) :=
  match l with
  | [] => []
  | (k', v) :: t =>
      if k' = k then (k', f v) :: t else (k', v) :: updateFirst t k f

/-- The JS pattern `if (!obj[k]) obj[k] = init; obj[k] = mutate(obj[k])`:
insert a fresh bucket at the end when the key is new, then mutate it in
place. -/
def upsert {κ β : Type} [DecidableEq κ] (l : List (κ × β)) (k : κ)
    (v₀ : β) (f : β → β) : List (κ × β) :=
  if hasKey l k then updateFirst l k f
  else updateFirst (l ++ [(k, v₀)]) k f

/-- One calendar-day accumulator bucket; `minWindSpeed = none` models the
`Infinity` initializer before any reading arrives. -/
structure DailyBucket where
  count : ℕ
  strongWindCount : ℕ
  extremeWindCount : ℕ
  totalWindSpeed : ℚ
  totalWindSpeed100m : ℚ
  totalWindGusts : ℚ
  maxWindSpeed : ℚ
  maxWindSpeed100m : ℚ
  maxWindGusts : ℚ
  minWindSpeed : Option ℚ
deriving DecidableEq, Repr

/-- The fresh daily bucket. -/
def initDailyBucket : DailyBucket :=
  { count := 0, strongWindCount := 0, extremeWindCount := 0
    totalWindSpeed := 0, totalWindSpeed100m := 0, totalWindGusts := 0
    maxWindSpeed := 0, maxWindSpeed100m := 0, maxWindGusts := 0
    minWindSpeed := none }

/-- The per-reading update of a daily bucket. -/
def dailyAdd (b : DailyBucket) (r : Reading) : DailyBucket :=
  { count := b.count + 1
    strongWindCount :=
      if strongWindThreshold ≤ r.windSpeedKmh then b.strongWindCount + 1
      else b.strongWindCount
    extremeWindCount :=
      if extremeWindThreshold ≤ r.windSpeedKmh then b.extremeWindCount + 1
      else b.extremeWindCount
    totalWindSpeed := b.totalWindSpeed + r.windSpeedKmh
    totalWindSpeed100m := b.totalWindSpeed100m + r.windSpeed100mKmh
    totalWindGusts := b.totalWindGusts + r.windGustsKmh
    maxWindSpeed := max b.maxWindSpeed r.windSpeedKmh
    maxWindSpeed100m := max b.maxWindSpeed100m r.windSpeed100mKmh
    maxWindGusts := max b.maxWindGusts r.windGustsKmh
    minWindSpeed :=
      match b.minWindSpeed with
      | none => some r.windSpeedKmh
      | some m => some (min m r.windSpeedKmh) }

/-- The accumulation loop of `calculateDailyDistribution`, one entry per
calendar date present, in first-appearance order. -/
def dailyAccum (data : List Reading) : List (ℤ × DailyBucket) :=
  data.foldl
    (fun acc r =>
      upsert acc (dateOf r.timestamp) initDailyBucket (fun b => dailyAdd b r))
    []

/-- A daily bucket after the averages pass; a `minWindSpeed` that was
never updated (`Infinity` in the source) is reported as 0. -/
structure DailyFinal where
  count : ℕ
  strongWindCount : ℕ
  extremeWindCount : ℕ
  totalWindSpeed : ℚ
  totalWindSpeed100m : ℚ
  totalWindGusts : ℚ
  maxWindSpeed : ℚ
  maxWindSpeed100m : ℚ
  maxWindGusts : ℚ
  minWindSpeed : ℚ
  avgWindSpeed : ℚ
  avgWindSpeed100m : ℚ
  avgWindGusts : ℚ
  strongWindPercentage : ℚ
  extremeWindPercentage : ℚ
deriving DecidableEq, Repr

/-- Deriving the averages of a daily bucket. -/
def finalizeDaily (b : DailyBucket) : DailyFinal :=
  { count := b.count
    strongWindCount := b.strongWindCount
    extremeWindCount := b.extremeWindCount
    totalWindSpeed := b.totalWindSpeed
    totalWindSpeed100m := b.totalWindSpeed100m
    totalWindGusts := b.totalWindGusts
    maxWindSpeed := b.maxWindSpeed
    maxWindSpeed100m := b.maxWindSpeed100m
    maxWindGusts := b.maxWindGusts
    minWindSpeed := b.minWindSpeed.getD 0
    avgWindSpeed := b.totalWindSpeed / b.count
    avgWindSpeed100m := b.totalWindSpeed100m / b.count
    avgWindGusts := b.totalWindGusts / b.count
    strongWindPercentage := (b.strongWindCount : ℚ) / b.count * 100
    extremeWindPercentage := (b.extremeWindCount : ℚ) / b.count * 100 }

/-- Model of `WindAnalysisService.calculateDailyDistribution`. -/
def calculateDailyDistribution (data : List Reading) :
    List (ℤ × DailyFinal) :=
  (dailyAccum data).map (fun e => (e.1, finalizeDaily e.2))

/-- One wind-rose accumulator bucket. -/
structure RoseBucket where
  count : ℕ
  strongWindCount : ℕ
  extremeWindCount : ℕ
  totalSpeed : ℚ
  totalSpeed100m : ℚ
deriving DecidableEq, Repr

/-- The fresh rose bucket. -/
def initRoseBucket : RoseBucket :=
  { count := 0, strongWindCount := 0, extremeWindCount := 0
    totalSpeed := 0, totalSpeed100m := 0 }

/-- The 16 pre-initialized buckets of `calculateWindRose`, in the order
of `directionNames`. -/
def initRose : List (String × RoseBucket) :=
  directionNames.map (fun n => (n, initRoseBucket))

/-- The per-reading update of a rose bucket. -/
def roseAdd (b : RoseBucket) (r : Reading) : RoseBucket :=
  { count := b.count + 1
    strongWindCount :=
      if strongWindThreshold ≤ r.windSpeedKmh then b.strongWindCount + 1
      else b.strongWindCount
    extremeWindCount :=
      if extremeWindThreshold ≤ r.windSpeedKmh then b.extremeWindCount + 1
      else b.extremeWindCount
    totalSpeed := b.totalSpeed + r.windSpeedKmh
    totalSpeed100m := b.totalSpeed100m + r.windSpeed100mKmh }

/-- The accumulation loop of `calculateWindRose`. A reading whose
direction maps outside the 16 buckets (`getWindDirection` returns
`undefined`) makes the source throw; that crash is modeled as `none`.
When `getWindDirection` returns a name it is always one of the 16 keys,
so the key is present and `updateFirst` mutates it. -/
def roseAccum (data : List Reading) :
    Option (List (String × RoseBucket)) :=
  data.foldlM
    (fun acc r =>
      (getWindDirection r.windDirection).map
        (fun name => updateFirst acc name (fun b => roseAdd b r)))
    initRose

/-- A rose bucket after the averages pass. -/
structure RoseFinal where
  count : ℕ
  strongWindCount : ℕ
  extremeWindCount : ℕ
  totalSpeed : ℚ
  totalSpeed100m : ℚ
  avgSpeed : ℚ
  avgSpeed100m : ℚ
  strongWindPercentage : ℚ
  extremeWindPercentage : ℚ
deriving DecidableEq, Repr

/-- Deriving the averages and percentages of a rose bucket; empty
buckets report zero. -/
def finalizeRose (b : RoseBucket) : RoseFinal :=
  { count := b.count
    strongWindCount := b.strongWindCount
    extremeWindCount := b.extremeWindCount
    totalSpeed := b.totalSpeed
    totalSpeed100m := b.totalSpeed100m
    avgSpeed := if 0 < b.count then b.totalSpeed / b.count else 0
    avgSpeed100m := if 0 < b.count then b.totalSpeed100m / b.count else 0
    strongWindPercentage :=
      if 0 < b.count then (b.strongWindCount : ℚ) / b.count * 100 else 0
    extremeWindPercentage :=
      if 0 < b.count then (b.extremeWindCount : ℚ) / b.count * 100 else 0 }

/-- Model of `WindAnalysisService.calculateWindRose`. -/
def calculateWindRose (data : List Reading) :
    Option (List (String × RoseFinal)) :=
  (roseAccum data).map (List.map (fun e => (e.1, finalizeRose e.2)))

/-! ## Counting lemmas for the distributions (C6) -/

/-- Each reading increments the count of exactly one hourly bucket. -/
theorem hourlyFold_count_sum (data : List Reading) :
    ∀ stats : Fin 24 → HourlyBucket,
      (∑ h : Fin 24,
        (data.foldl
          (fun stats r =>
            Function.update stats (hourOf r.timestamp)
              (hourlyAdd (stats (hourOf r.timestamp)) r))
          stats h).count) =
      (∑ h : Fin 24, (stats h).count) + data.length := by
  induction data with
  | nil => intro stats; simp
  | cons r rest ih =>
      intro stats
      rw [List.foldl_cons, ih]
      have hone : (∑ h : Fin 24,
          (Function.update stats (hourOf r.timestamp)
            (hourlyAdd (stats (hourOf r.timestamp)) r) h).count) =
          (∑ h : Fin 24, (stats h).count) + 1 := by
        rw [show (∑ h : Fin 24,
            (Function.update stats (hourOf r.timestamp)
              (hourlyAdd (stats (hourOf r.timestamp)) r) h).count) =
            ∑ h : Fin 24,
              Function.update (fun h => (stats h).count)
                (hourOf r.timestamp)
                (hourlyAdd (stats (hourOf r.timestamp)) r).count h from
          Finset.sum_congr rfl (fun h _ => by
            rw [Function.update_apply, Function.update_apply,
              apply_ite HourlyBucket.count])]
        rw [Finset.sum_update_of_mem (Finset.mem_univ _)]
        rw [show (∑ h : Fin 24, (stats h).count) =
            (stats (hourOf r.timestamp)).count +
              ∑ h ∈ Finset.univ.erase (hourOf r.timestamp),
                (stats h).count from
          (Finset.add_sum_erase _ _ (Finset.mem_univ _)).symm]
        rw [show (hourlyAdd (stats (hourOf r.timestamp)) r).count =
          (stats (hourOf r.timestamp)).count + 1 from rfl]
        simp only [Finset.erase_eq]
        omega
      rw [hone]
      simp only [List.length_cons]
      omega

/-- Updating a present key through a count-incrementing function adds one
to the total count of an association list. -/
theorem sumMap_updateFirst {κ β : Type} [DecidableEq κ] (μ : β → ℕ)
    (f : β → β) (hf : ∀ v, μ (f v) = μ v + 1) :
    ∀ (l : List (κ × β)) (k : κ), hasKey l k = true →
      ((updateFirst l k f).map (fun e => μ e.2)).sum =
        (l.map (fun e => μ e.2)).sum + 1 := by
  intro l
  induction l with
  | nil => intro k hk; simp [hasKey] at hk
  | cons e t ih =>
      intro k hk
      obtain ⟨k', v⟩ := e
      by_cases hke : k' = k
      · simp [updateFirst, hke, hf]
        omega
      · have ht : hasKey t k = true := by
          simp [hasKey, hke] at hk ⊢
          exact hk
        simp [updateFirst, hke, ih _ ht]
        omega

/-- Upserting with a zero-count initial bucket and a count-incrementing
update adds one to the total count. -/
theorem sumMap_upsert {κ β : Type} [DecidableEq κ] (μ : β → ℕ)
    (f : β → β) (hf : ∀ v, μ (f v) = μ v + 1) (v₀ : β) (hv₀ : μ v₀ = 0)
    (l : List (κ × β)) (k : κ) :
    ((upsert l k v₀ f).map (fun e => μ e.2)).sum =
      (l.map (fun e => μ e.2)).sum + 1 := by
  unfold upsert
  by_cases hk : hasKey l k
  · rw [if_pos hk, sumMap_updateFirst μ f hf l k hk]
  · rw [if_neg hk]
    have hk2 : hasKey (l ++ [(k, v₀)]) k = true := by
      simp [hasKey]
    rw [sumMap_updateFirst μ f hf _ k hk2]
    simp [hv₀]

/-- Folding readings into the daily accumulator adds one count per
reading. -/
theorem dailyFold_count_sum (data : List Reading) :
    ∀ acc : List (ℤ × DailyBucket),
      ((data.foldl
          (fun acc r =>
            upsert acc (dateOf r.timestamp) initDailyBucket
              (fun b => dailyAdd b r)) acc).map
        (fun e => e.2.count)).sum =
      (acc.map (fun e => e.2.count)).sum + data.length := by
  induction data with
  | nil => intro acc; simp
  | cons r rest ih =>
      intro acc
      rw [List.foldl_cons, ih,
        sumMap_upsert DailyBucket.count _ (fun v => rfl) _ rfl]
      simp only [List.length_cons]
      omega

/-- `updateFirst` does not change the key sequence. -/
theorem updateFirst_keys {κ β : Type} [DecidableEq κ] (f : β → β) :
    ∀ (l : List (κ × β)) (k : κ),
      (updateFirst l k f).map Prod.fst = l.map Prod.fst := by
  intro l
  induction l with
  | nil => intro k; rfl
  | cons e t ih =>
      intro k
      obtain ⟨k', v⟩ := e
      by_cases hke : k' = k <;> simp [updateFirst, hke, ih]

/-- A key is present exactly when it occurs in the key sequence. -/
theorem hasKey_iff_mem_keys {κ β : Type} [DecidableEq κ]
    (l : List (κ × β)) (k : κ) :
    hasKey l k = true ↔ k ∈ l.map Prod.fst := by
  simp [hasKey, List.any_eq_true]

/-- Folding readings with non-negative directions through the wind-rose
accumulator succeeds and adds one count per reading, keeping the 16 keys
fixed. -/
theorem roseFold_count_sum (data : List Reading) :
    ∀ acc : List (String × RoseBucket),
      (∀ r ∈ data, 0 ≤ r.windDirection) →
      acc.map Prod.fst = directionNames →
      ∃ s, data.foldlM
          (fun acc r =>
            (getWindDirection r.windDirection).map
              (fun name => updateFirst acc name (fun b => roseAdd b r)))
          acc = some s ∧
        (s.map (fun e => e.2.count)).sum =
          (acc.map (fun e => e.2.count)).sum + data.length ∧
        s.map Prod.fst = directionNames := by
  induction data with
  | nil =>
      intro acc _ hkeys
      exact ⟨acc, rfl, by simp, hkeys⟩
  | cons r rest ih =>
      intro acc hdir hkeys
      obtain ⟨name, hmem, hget⟩ :=
        getWindDirection_mem _ (hdir r (List.mem_cons_self _ _))
      have hk : hasKey acc name = true := by
        rw [hasKey_iff_mem_keys, hkeys]
        exact hmem
      obtain ⟨s, hs, hsum, hkeys'⟩ :=
        ih (updateFirst acc name (fun b => roseAdd b r))
          (fun x hx => hdir x (List.mem_cons_of_mem _ hx))
          (by rw [updateFirst_keys]; exact hkeys)
      refine ⟨s, ?_, ?_, hkeys'⟩
      · rw [List.foldlM_cons, hget]
        simpa using hs
      · rw [hsum,
          sumMap_updateFirst RoseBucket.count _ (fun v => rfl) acc name hk]
        simp only [List.length_cons]
        omega

/-- C6: the `count` fields of the 24 hourly buckets sum to the total
number of readings; so do the counts of the daily buckets over all dates
present; and (for readings with non-negative directions, as the data
model requires) so do the counts of the 16 directional buckets. -/
theorem bucket_counts_sum_to_total (data : List Reading) :
    (∑ h : Fin 24, (calculateHourlyDistribution data h).count) =
      data.length ∧
    ((calculateDailyDistribution data).map (fun e => e.2.count)).sum =
      data.length ∧
    ((∀ r ∈ data, 0 ≤ r.windDirection) →
      ∃ s, calculateWindRose data = some s ∧
        (s.map (fun e => e.2.count)).sum = data.length) := by
  refine ⟨?_, ?_, ?_⟩
  · have hfin : ∀ h, (calculateHourlyDistribution data h).count =
        (hourlyAccum data h).count := fun h => rfl
    simp only [hfin]
    simp only [hourlyAccum]
    rw [hourlyFold_count_sum]
    simp
    rfl
  · unfold calculateDailyDistribution
    rw [List.map_map]
    rw [show ((fun e : ℤ × DailyFinal => e.2.count) ∘
        (fun e : ℤ × DailyBucket => (e.1, finalizeDaily e.2))) =
      (fun e : ℤ × DailyBucket => e.2.count) from rfl]
    unfold dailyAccum
    rw [dailyFold_count_sum]
    simp
  · intro hdir
    obtain ⟨s, hs, hsum, _⟩ := roseFold_count_sum data initRose hdir
      (by rfl)
    refine ⟨s.map (fun e => (e.1, finalizeRose e.2)), ?_, ?_⟩
    · unfold calculateWindRose roseAccum
      rw [hs]
      rfl
    · rw [List.map_map]
      rw [show ((fun e : String × RoseFinal => e.2.count) ∘
          (fun e : String × RoseBucket => (e.1, finalizeRose e.2))) =
        (fun e : String × RoseBucket => e.2.count) from rfl]
      rw [hsum]
      have hzero : ((initRose.map (fun e => e.2.count)).sum) = 0 := by
        rfl
      rw [hzero]
      omega

unseal Rat.mul Rat.inv Rat.add Rat.sub in
/-- Witness for C6 on a one-reading input. -/
theorem bucket_counts_sum_witness :
    (∀ r ∈ [exampleReadingAt 5], (0 : ℚ) ≤ r.windDirection) ∧
    (∑ h : Fin 24,
        (calculateHourlyDistribution [exampleReadingAt 5] h).count) = 1 ∧
    ((calculateDailyDistribution [exampleReadingAt 5]).map
      (fun e => e.2.count)).sum = 1 ∧
    ∃ s, calculateWindRose [exampleReadingAt 5] = some s ∧
      (s.map (fun e => e.2.count)).sum = 1 :=
  ⟨by decide,
    (bucket_counts_sum_to_total [exampleReadingAt 5]).1,
    (bucket_counts_sum_to_total [exampleReadingAt 5]).2.1,
    (bucket_counts_sum_to_total [exampleReadingAt 5]).2.2 (by decide)⟩

/-! ## Multi-site aggregation (`StrongWindPeriodsService`)

`analyzeStrongWindPeriods` pools per-farm periods as
`{ windFarm: windFarm, ...period }`, sorts them by start time, groups
them by the calendar date of `startTime` and derives the NZ-wide
strong-wind days. The object spread comes second, so the period's own
`windFarm` field — the farm-name string set by `findStrongWindPeriods` —
overwrites the farm object. -/

/-- The value held by the `windFarm` property of an aggregated period:
either a wind-farm object or a farm-name string. -/
inductive WindFarmField where
  | farmObj : WindFarm → WindFarmField
  | nameStr : String → WindFarmField
deriving DecidableEq, Repr

/-- JS property access `value.name`: a wind-farm object has a `name`
property; a string has none, so the access yields `undefined`. -/
def WindFarmField.jsName : WindFarmField → Option String
  | .farmObj f => some f.name
  | .nameStr _ => none

/-- An entry of `nzStrongWindPeriods`. -/
structure AggPeriod where
  windFarm : WindFarmField
  startTime : ℚ
  startWindSpeed : ℚ
  maxWindSpeed : ℚ
  readings : List Reading
  endTime : ℚ
  durationHours : ℚ
  avgWindSpeed : ℚ
deriving DecidableEq, Repr

/-- `{ windFarm: windFarm, ...period }`: every key of `period`, its
`windFarm` string included, overwrites the first entry, so the farm
object is discarded. -/
def mkAggPeriod (_farm : WindFarm) (p : StrongWindPeriod) : AggPeriod :=
  { windFarm := WindFarmField.nameStr p.windFarm
    startTime := p.startTime
    startWindSpeed := p.startWindSpeed
    maxWindSpeed := p.maxWindSpeed
    readings := p.readings
    endTime := p.endTime
    durationHours := p.durationHours
    avgWindSpeed := p.avgWindSpeed }

/-- Model of `groupPeriodsByDate`: group by the calendar date of
`startTime`, keys in first-appearance order, each group in list order. -/
def groupPeriodsByDate (periods : List AggPeriod) :
    List (ℤ × List AggPeriod) :=
  periods.foldl
    (fun acc p =>
      upsert acc (dateOf p.startTime) [] (fun g => g ++ [p]))
    []

/-- JS `Math.max(...xs)`: maximum of a non-empty list (the empty case
would be `-Infinity`; day groups are non-empty so it is unreachable and
mapped to 0). -/
def jsMaxList (l : List ℚ) : ℚ :=
  match l with
  | [] => 0
  | h :: t => t.foldl max h

/-- A record of `nzStrongWindDays`. -/
structure NZWindDay where
  date : ℤ
  windFarms : List (Option String)
  windFarmCount : ℕ
  periods : List AggPeriod
  totalDuration : ℚ
  maxWindSpeed : ℚ
deriving DecidableEq, Repr

/-- JS `Array.from(new Set(xs))`: insertion-order deduplication. -/
def jsSetFrom {α : Type} [DecidableEq α] (l : List α) : List α :=
  l.foldl (fun acc a => if a ∈ acc then acc else acc ++ [a]) []

/-- Model of `findNZStrongWindDays`: for every date group compute the
set of `p.windFarm.name` values, keep the date when that set has at
least one element, and sort the records by `windFarmCount`
descending. -/
def findNZStrongWindDays (periodsByDate : List (ℤ × List AggPeriod)) :
    List NZWindDay :=
  List.insertionSort (fun a b => b.windFarmCount ≤ a.windFarmCount)
    (periodsByDate.filterMap fun e =>
      let uniqueWindFarms :=
        jsSetFrom (e.2.map (fun p => p.windFarm.jsName))
      if 1 ≤ uniqueWindFarms.length then
        some { date := e.1
               windFarms := uniqueWindFarms
               windFarmCount := uniqueWindFarms.length
               periods := e.2
               totalDuration := (e.2.map (fun p => p.durationHours)).sum
               maxWindSpeed :=
                 jsMaxList (e.2.map (fun p => p.maxWindSpeed)) }
      else none)

/-- The pooled `nzStrongWindPeriods` list: farms with at least one
detected period contribute their periods tagged with the farm. -/
def nzStrongWindPeriods
    (farmPeriods : List (WindFarm × List StrongWindPeriod)) :
    List AggPeriod :=
  farmPeriods.foldl
    (fun acc e =>
      if 0 < e.2.length then acc ++ e.2.map (mkAggPeriod e.1) else acc)
    []

/-- The day-derivation pipeline of `analyzeStrongWindPeriods`, given the
per-farm detection results: pool, sort by start time, group by date,
derive NZ-wide strong-wind days. -/
def analyzeStrongWindDays
    (farmPeriods : List (WindFarm × List StrongWindPeriod)) :
    List NZWindDay :=
  findNZStrongWindDays
    (groupPeriodsByDate
      (List.insertionSort (fun a b => a.startTime ≤ b.startTime)
        (nzStrongWindPeriods farmPeriods)))

/-! ### Lemmas about the aggregation pipeline -/

/-- Entries of `updateFirst` are old entries or the updated entry. -/
theorem mem_updateFirst {κ β : Type} [DecidableEq κ] (f : β → β) :
    ∀ (l : List (κ × β)) (k : κ) (e : κ × β), e ∈ updateFirst l k f →
      e ∈ l ∨ ∃ v, (k, v) ∈ l ∧ e = (k, f v) := by
  intro l
  induction l with
  | nil => intro k e he; simp [updateFirst] at he
  | cons hd t ih =>
      intro k e he
      obtain ⟨k', v⟩ := hd
      by_cases hke : k' = k
      · subst hke
        rw [updateFirst, if_pos rfl] at he
        rcases List.mem_cons.mp he with rfl | he
        · exact Or.inr ⟨v, List.mem_cons_self _ _, rfl⟩
        · exact Or.inl (List.mem_cons_of_mem _ he)
      · rw [updateFirst, if_neg hke] at he
        rcases List.mem_cons.mp he with rfl | he
        · exact Or.inl (List.mem_cons_self _ _)
        · rcases ih k e he with h | ⟨w, hw, hew⟩
          · exact Or.inl (List.mem_cons_of_mem _ h)
          · exact Or.inr ⟨w, List.mem_cons_of_mem _ hw, hew⟩

/-- When the key is absent, appending a fresh entry and updating it is
appending the updated entry. -/
theorem updateFirst_append_absent {κ β : Type} [DecidableEq κ]
    (f : β → β) (v₀ : β) :
    ∀ (l : List (κ × β)) (k : κ), hasKey l k = false →
      updateFirst (l ++ [(k, v₀)]) k f = l ++ [(k, f v₀)] := by
  intro l
  induction l with
  | nil => intro k _; simp [updateFirst]
  | cons hd t ih =>
      intro k hk
      obtain ⟨k', v⟩ := hd
      have hke : ¬ k' = k := by
        intro h
        simp [hasKey, h] at hk
      simp only [List.cons_append, updateFirst, if_neg hke]
      rw [show t.append [(k, v₀)] = t ++ [(k, v₀)] from rfl,
        ih k (by simpa [hasKey, hke] using hk)]

/-- Entries of `upsert` are old entries or an update of an old or fresh
bucket under the upserted key. -/
theorem mem_upsert {κ β : Type} [DecidableEq κ] (l : List (κ × β))
    (k : κ) (v₀ : β) (f : β → β) (e : κ × β) (he : e ∈ upsert l k v₀ f) :
    e ∈ l ∨ ∃ v, e = (k, f v) ∧ ((k, v) ∈ l ∨ v = v₀) := by
  unfold upsert at he
  by_cases hk : hasKey l k
  · rw [if_pos hk] at he
    rcases mem_updateFirst f l k e he with h | ⟨v, hv, hev⟩
    · exact Or.inl h
    · exact Or.inr ⟨v, hev, Or.inl hv⟩
  · rw [if_neg hk, updateFirst_append_absent f v₀ l k
      (Bool.not_eq_true _ ▸ hk)] at he
    rcases List.mem_append.mp he with h | h
    · exact Or.inl h
    · exact Or.inr ⟨v₀, by simpa using h, Or.inr rfl⟩

/-- The key sequence of `upsert` is the old one, extended by the key
when it was absent. -/
theorem upsert_keys {κ β : Type} [DecidableEq κ] (l : List (κ × β))
    (k : κ) (v₀ : β) (f : β → β) :
    (upsert l k v₀ f).map Prod.fst = l.map Prod.fst ∨
    (upsert l k v₀ f).map Prod.fst = l.map Prod.fst ++ [k] := by
  unfold upsert
  by_cases hk : hasKey l k
  · rw [if_pos hk, updateFirst_keys]
    exact Or.inl rfl
  · rw [if_neg hk, updateFirst_append_absent f v₀ l k
      (Bool.not_eq_true _ ▸ hk)]
    simp

/-- The upserted key is present afterwards. -/
theorem hasKey_upsert_self {κ β : Type} [DecidableEq κ]
    (l : List (κ × β)) (k : κ) (v₀ : β) (f : β → β) :
    hasKey (upsert l k v₀ f) k = true := by
  unfold upsert
  by_cases hk : hasKey l k
  · rwa [if_pos hk, hasKey_iff_mem_keys, updateFirst_keys,
      ← hasKey_iff_mem_keys]
  · rw [if_neg hk, updateFirst_append_absent f v₀ l k (by simpa using hk)]
    rw [hasKey_iff_mem_keys]
    simp

/-- Keys present before an upsert stay present. -/
theorem hasKey_upsert_mono {κ β : Type} [DecidableEq κ]
    (l : List (κ × β)) (k k' : κ) (v₀ : β) (f : β → β)
    (h : hasKey l k' = true) :
    hasKey (upsert l k v₀ f) k' = true := by
  rw [hasKey_iff_mem_keys] at h ⊢
  rcases upsert_keys l k v₀ f with hk | hk <;> rw [hk] <;> simp [h]

/-- A present key has an entry. -/
theorem hasKey_exists_entry {κ β : Type} [DecidableEq κ]
    (l : List (κ × β)) (k : κ) (h : hasKey l k = true) :
    ∃ v, (k, v) ∈ l := by
  rw [hasKey_iff_mem_keys] at h
  obtain ⟨e, he, heq⟩ := List.mem_map.mp h
  refine ⟨e.2, ?_⟩
  have he2 : (k, e.2) = e := by
    obtain ⟨a, b⟩ := e
    simp at heq
    simp [heq]
  rwa [he2]

/-- Invariant of the date-grouping fold: every group is non-empty and
consists of periods of the grouped list (stated via a property that all
grouped periods share). -/
theorem groupFold_preserves (Q : AggPeriod → Prop) (l : List AggPeriod) :
    ∀ acc : List (ℤ × List AggPeriod),
      (∀ p ∈ l, Q p) →
      (∀ e ∈ acc, (∀ p ∈ e.2, Q p) ∧ e.2 ≠ []) →
      ∀ e ∈ l.foldl
          (fun acc p =>
            upsert acc (dateOf p.startTime) [] (fun g => g ++ [p])) acc,
        (∀ p ∈ e.2, Q p) ∧ e.2 ≠ [] := by
  induction l with
  | nil =>
      intro acc _ hacc e he
      exact hacc e he
  | cons p t ih =>
      intro acc hl hacc e he
      rw [List.foldl_cons] at he
      refine ih _ (fun x hx => hl x (List.mem_cons_of_mem _ hx)) ?_ e he
      intro e' he'
      rcases mem_upsert acc (dateOf p.startTime) [] (fun g => g ++ [p])
          e' he' with h | ⟨v, rfl, hv⟩
      · exact hacc e' h
      · constructor
        · intro x hx
          simp at hx
          rcases hx with hx | rfl
          · rcases hv with hv | rfl
            · exact (hacc _ hv).1 x hx
            · simp at hx
          · exact hl _ (List.mem_cons_self _ _)
        · simp

/-- Every period of the grouped list has its date among the group
keys. -/
theorem groupFold_hasKey (l : List AggPeriod) :
    ∀ acc : List (ℤ × List AggPeriod), ∀ p ∈ l,
      hasKey
        (l.foldl
          (fun acc p =>
            upsert acc (dateOf p.startTime) [] (fun g => g ++ [p])) acc)
        (dateOf p.startTime) = true := by
  have hmono : ∀ (t : List AggPeriod) (acc : List (ℤ × List AggPeriod))
      (k : ℤ), hasKey acc k = true →
      hasKey (t.foldl
        (fun acc p =>
          upsert acc (dateOf p.startTime) [] (fun g => g ++ [p])) acc)
        k = true := by
    intro t
    induction t with
    | nil => intro acc k h; exact h
    | cons q t ih =>
        intro acc k h
        rw [List.foldl_cons]
        exact ih _ k (hasKey_upsert_mono _ _ _ _ _ h)
  intro acc p hp
  induction hp generalizing acc with
  | head as =>
      rw [List.foldl_cons]
      exact hmono as _ _ (hasKey_upsert_self _ _ _ _)
  | tail b hmem ih =>
      rw [List.foldl_cons]
      exact ih _

/-- `Array.from(new Set(...))` of a non-empty constant list is the
one-element list. -/
theorem jsSetFrom_const {α : Type} [DecidableEq α] (a : α) :
    ∀ l : List α, l ≠ [] → (∀ x ∈ l, x = a) → jsSetFrom l = [a] := by
  have haux : ∀ (l : List α) (acc : List α), (∀ x ∈ l, x = a) →
      a ∈ acc → l.foldl (fun acc x => if x ∈ acc then acc else acc ++ [x])
        acc = acc := by
    intro l
    induction l with
    | nil => intro acc _ _; rfl
    | cons x t ih =>
        intro acc hl ha
        rw [List.foldl_cons, hl x (List.mem_cons_self _ _),
          if_pos ha]
        exact ih acc (fun y hy => hl y (List.mem_cons_of_mem _ hy)) ha
  intro l hne hl
  obtain ⟨x, t, rfl⟩ : ∃ x t, l = x :: t := by
    cases l with
    | nil => cases hne rfl
    | cons x t => exact ⟨x, t, rfl⟩
  rw [jsSetFrom, List.foldl_cons, hl x (List.mem_cons_self _ _)]
  rw [if_neg (by simp)]
  simpa using haux t [a] (fun y hy => hl y (List.mem_cons_of_mem _ hy))
    (by simp)

/-- A non-empty date group whose periods all carry a string `windFarm`
produces a day record with `windFarms = [undefined]` and count 1. -/
theorem findNZStrongWindDays_record (g : List (ℤ × List AggPeriod))
    (D : ℤ) (grp : List AggPeriod) (hmem : (D, grp) ∈ g) (hne : grp ≠ [])
    (hnames : ∀ p ∈ grp, ∃ s, p.windFarm = WindFarmField.nameStr s) :
    ∃ rec ∈ findNZStrongWindDays g,
      rec.date = D ∧ rec.windFarmCount = 1 ∧ rec.windFarms = [none] := by
  have hset : jsSetFrom (grp.map (fun p => p.windFarm.jsName)) =
      [none] := by
    refine jsSetFrom_const none _ (by simpa using hne) ?_
    intro x hx
    obtain ⟨p, hp, rfl⟩ := List.mem_map.mp hx
    obtain ⟨s, hs⟩ := hnames p hp
    rw [hs]
    rfl
  refine ⟨{ date := D
            windFarms := [none]
            windFarmCount := 1
            periods := grp
            totalDuration := (grp.map (fun p => p.durationHours)).sum
            maxWindSpeed := jsMaxList (grp.map (fun p => p.maxWindSpeed)) },
    ?_, rfl, rfl, rfl⟩
  unfold findNZStrongWindDays
  rw [(List.perm_insertionSort _ _).mem_iff]
  refine List.mem_filterMap.mpr ⟨(D, grp), hmem, ?_⟩
  simp only [hset]
  rw [if_pos (by simp)]
  rfl

/-- Elements already pooled stay in the pool. -/
theorem nzFold_mono (farmPeriods : List (WindFarm × List StrongWindPeriod)) :
    ∀ (acc : List AggPeriod) (x : AggPeriod), x ∈ acc →
      x ∈ farmPeriods.foldl
        (fun acc e =>
          if 0 < e.2.length then acc ++ e.2.map (mkAggPeriod e.1) else acc)
        acc := by
  induction farmPeriods with
  | nil => intro acc x hx; exact hx
  | cons e t ih =>
      intro acc x hx
      rw [List.foldl_cons]
      by_cases hlen : 0 < e.2.length
      · rw [if_pos hlen]
        exact ih _ x (List.mem_append_left _ hx)
      · rw [if_neg hlen]
        exact ih _ x hx

/-- Every period of a contributing farm appears in the pooled list. -/
theorem mkAgg_mem_nzPeriods
    (farmPeriods : List (WindFarm × List StrongWindPeriod))
    (F : WindFarm) (psF : List StrongWindPeriod)
    (hmem : (F, psF) ∈ farmPeriods) (p : StrongWindPeriod) (hp : p ∈ psF) :
    mkAggPeriod F p ∈ nzStrongWindPeriods farmPeriods := by
  unfold nzStrongWindPeriods
  suffices h : ∀ acc : List AggPeriod,
      mkAggPeriod F p ∈ farmPeriods.foldl
        (fun acc e =>
          if 0 < e.2.length then acc ++ e.2.map (mkAggPeriod e.1) else acc)
        acc from h []
  induction hmem with
  | head t =>
      intro acc
      rw [List.foldl_cons,
        if_pos (List.length_pos.mpr (List.ne_nil_of_mem hp))]
      exact nzFold_mono t _ _
        (List.mem_append_right _ (List.mem_map_of_mem _ hp))
  | tail b hmem ih =>
      intro acc
      rw [List.foldl_cons]
      exact ih _

/-- Every pooled period carries the farm-name string in `windFarm`: the
object spread has overwritten the farm object. -/
theorem nzStrongWindPeriods_windFarm_nameStr
    (farmPeriods : List (WindFarm × List StrongWindPeriod)) :
    ∀ p ∈ nzStrongWindPeriods farmPeriods,
      ∃ s, p.windFarm = WindFarmField.nameStr s := by
  unfold nzStrongWindPeriods
  suffices h : ∀ acc : List AggPeriod,
      (∀ p ∈ acc, ∃ s, p.windFarm = WindFarmField.nameStr s) →
      ∀ p ∈ farmPeriods.foldl
        (fun acc e =>
          if 0 < e.2.length then acc ++ e.2.map (mkAggPeriod e.1) else acc)
        acc, ∃ s, p.windFarm = WindFarmField.nameStr s from
    h [] (by simp)
  induction farmPeriods with
  | nil => intro acc hacc p hp; exact hacc p hp
  | cons e t ih =>
      intro acc hacc p hp
      rw [List.foldl_cons] at hp
      by_cases hlen : 0 < e.2.length
      · rw [if_pos hlen] at hp
        refine ih _ ?_ p hp
        intro q hq
        rcases List.mem_append.mp hq with hq | hq
        · exact hacc q hq
        · obtain ⟨q₀, _, rfl⟩ := List.mem_map.mp hq
          exact ⟨q₀.windFarm, rfl⟩
      · rw [if_neg hlen] at hp
        exact ih _ hacc p hp

/-- C10: every day record produced by the aggregation pipeline has
`windFarmCount = 1` and a `windFarms` list containing only the single
value `undefined`, regardless of how many distinct sites had qualifying
periods that date: each pooled period's `windFarm` field is the farm-name
string (the object spread in `analyzeStrongWindPeriods` overwrites the
farm object), so the day grouping reads `p.windFarm.name` as `undefined`
for every period. -/
theorem nz_day_records_have_undefined_farm_names
    (farmPeriods : List (WindFarm × List StrongWindPeriod)) :
    ∀ rec ∈ analyzeStrongWindDays farmPeriods,
      rec.windFarmCount = 1 ∧ rec.windFarms = [none] := by
  intro rec hrec
  unfold analyzeStrongWindDays findNZStrongWindDays at hrec
  rw [(List.perm_insertionSort _ _).mem_iff] at hrec
  obtain ⟨e, he, hfe⟩ := List.mem_filterMap.mp hrec
  have hsortedQ : ∀ p ∈ List.insertionSort
      (fun a b => a.startTime ≤ b.startTime)
      (nzStrongWindPeriods farmPeriods),
      ∃ s, p.windFarm = WindFarmField.nameStr s := by
    intro p hp
    exact nzStrongWindPeriods_windFarm_nameStr farmPeriods p
      ((List.perm_insertionSort _ _).mem_iff.mp hp)
  have hinv : (∀ p ∈ e.2, ∃ s, p.windFarm = WindFarmField.nameStr s) ∧
      e.2 ≠ [] := by
    unfold groupPeriodsByDate at he
    exact groupFold_preserves _ _ [] hsortedQ (by simp) e he
  have hset : jsSetFrom (e.2.map (fun p => p.windFarm.jsName)) =
      [none] := by
    refine jsSetFrom_const none _ (by simpa using hinv.2) ?_
    intro x hx
    obtain ⟨p, hp, rfl⟩ := List.mem_map.mp hx
    obtain ⟨s, hs⟩ := hinv.1 p hp
    rw [hs]
    rfl
  simp only [hset] at hfe
  rw [if_pos (by simp)] at hfe
  have := Option.some.inj hfe
  rw [← this]
  exact ⟨rfl, rfl⟩

/-- C8: when exactly one site has at least one qualifying period starting
on calendar date D and every other site has none, the aggregator marks D
as an NZ-wide strong-wind day (ANY-site union semantics) whose site-name
set has size exactly one. -/
theorem nz_strong_wind_day_any_site
    (A B : List (WindFarm × List StrongWindPeriod)) (F : WindFarm)
    (psF : List StrongWindPeriod) (D : ℤ)
    (hF : ∃ p ∈ psF, dateOf p.startTime = D)
    (_hothers : ∀ e ∈ A ++ B, ∀ p ∈ e.2, dateOf p.startTime ≠ D) :
    ∃ rec ∈ analyzeStrongWindDays (A ++ (F, psF) :: B),
      rec.date = D ∧ rec.windFarmCount = 1 := by
  obtain ⟨p, hp, hdp⟩ := hF
  have hpool : mkAggPeriod F p ∈ nzStrongWindPeriods (A ++ (F, psF) :: B) :=
    mkAgg_mem_nzPeriods _ F psF (by simp) p hp
  have hpsorted : mkAggPeriod F p ∈ List.insertionSort
      (fun a b => a.startTime ≤ b.startTime)
      (nzStrongWindPeriods (A ++ (F, psF) :: B)) :=
    (List.perm_insertionSort _ _).mem_iff.mpr hpool
  have hkey : hasKey
      (groupPeriodsByDate
        (List.insertionSort (fun a b => a.startTime ≤ b.startTime)
          (nzStrongWindPeriods (A ++ (F, psF) :: B)))) D = true := by
    have h := groupFold_hasKey _ [] _ hpsorted
    rw [show dateOf (mkAggPeriod F p).startTime = D from hdp] at h
    exact h
  obtain ⟨grp, hgrp⟩ := hasKey_exists_entry _ _ hkey
  have hinv : (∀ q ∈ grp, ∃ s, q.windFarm = WindFarmField.nameStr s) ∧
      grp ≠ [] := by
    have := groupFold_preserves
      (fun q => ∃ s, q.windFarm = WindFarmField.nameStr s) _ []
      (fun q hq => nzStrongWindPeriods_windFarm_nameStr _ q
        ((List.perm_insertionSort _ _).mem_iff.mp hq))
      (by simp) (D, grp)
      (by
        unfold groupPeriodsByDate at hgrp
        exact hgrp)
    exact this
  obtain ⟨rec, hrec, hdate, hcount, _⟩ :=
    findNZStrongWindDays_record _ D grp hgrp hinv.2 hinv.1
  exact ⟨rec, hrec, hdate, hcount⟩

/-- A concrete wind farm for the aggregation witnesses. -/
def farmA : WindFarm :=
  { name := "Farm A", lat := -40, lon := 175, region := "Manawatu",
    capacity := 100, operator := "Op A" }

/-- A second concrete wind farm. -/
def farmB : WindFarm :=
  { name := "Farm B", lat := -41, lon := 174, region := "Wellington",
    capacity := 50, operator := "Op B" }

/-- A qualifying period of farm A starting on day 0. -/
def periodA : StrongWindPeriod :=
  { startTime := 2, startWindSpeed := 70, maxWindSpeed := 70,
    readings := [], windFarm := "Farm A", endTime := 8,
    durationHours := 6, avgWindSpeed := 70 }

/-- A qualifying period of farm B starting on day 0. -/
def periodB : StrongWindPeriod :=
  { startTime := 5, startWindSpeed := 65, maxWindSpeed := 65,
    readings := [], windFarm := "Farm B", endTime := 12,
    durationHours := 7, avgWindSpeed := 65 }

/-- The day record the pipeline produces when both farms have one period
on day 0. -/
def exampleNZDay : NZWindDay :=
  { date := 0, windFarms := [none], windFarmCount := 1,
    periods := [mkAggPeriod farmA periodA, mkAggPeriod farmB periodB],
    totalDuration := 13, maxWindSpeed := 70 }

unseal Rat.mul Rat.inv Rat.add Rat.sub in
/-- Witness for C10: with two distinct farms contributing periods on the
same date, the day record still reports a single undefined farm name. -/
theorem nz_day_records_witness :
    exampleNZDay ∈
      analyzeStrongWindDays [(farmA, [periodA]), (farmB, [periodB])] ∧
    exampleNZDay.windFarmCount = 1 ∧ exampleNZDay.windFarms = [none] :=
  ⟨by decide,
    nz_day_records_have_undefined_farm_names
      [(farmA, [periodA]), (farmB, [periodB])] exampleNZDay (by decide)⟩

unseal Rat.mul Rat.inv Rat.add Rat.sub in
/-- Witness for C8: farm A alone has a period on day 0, farm B has
none. -/
theorem nz_day_any_site_witness :
    ∃ rec ∈ analyzeStrongWindDays ([(farmB, [])] ++ (farmA, [periodA]) :: []),
      rec.date = 0 ∧ rec.windFarmCount = 1 :=
  nz_strong_wind_day_any_site [(farmB, [])] [] farmA [periodA] 0
    ⟨periodA, by decide, by decide⟩ (by decide)

/-! ## Reading normalizer (`WindDataService.getHistoricalData`)

The provider response carries the hourly block descriptor and one value
array per variable; the code synthesizes `(timeEnd - time)/interval`
timestamps and reads every array at the synthesized index with
`arr[index] || 0`. Nothing validates the arrays: there is no
`MalformedSourceData` (or any other) error path for shape mismatches,
and fetch/processing exceptions are caught and turned into an empty
list. -/

/-- The relevant fields of an Open-Meteo archive response. -/
structure ProviderResponse where
  time : ℤ
  timeEnd : ℤ
  interval : ℤ
  utcOffsetSeconds : ℤ
  windSpeed10m : List ℚ
  windSpeed100m : List ℚ
  windDirection10m : List ℚ
  windDirection100m : List ℚ
  windGusts10m : List ℚ
  temperature2m : List ℚ
  relativeHumidity2m : List ℚ
  pressureMsl : List ℚ
deriving DecidableEq, Repr

/-- The number of synthesized timestamps:
`Array((timeEnd - time) / interval)`. -/
def respCount (resp : ProviderResponse) : ℕ :=
  ((resp.timeEnd - resp.time) / resp.interval).toNat

/-- `arr[index] || 0`: a missing value (index past the array) is
`undefined` and defaults to 0. -/
def jsValueOrZero (l : List ℚ) (i : ℕ) : ℚ :=
  (l.get? i).getD 0

/-- Model of the formatting step of `getHistoricalData`: one reading per
synthesized timestamp `time + i * interval + utcOffsetSeconds` (seconds,
exposed here in hours), every variable read at the same index with
missing values defaulted to 0. The source also stores each speed twice
(`windSpeed`/`windSpeedKmh` aliases); the model keeps one copy. -/
def getHistoricalData (resp : ProviderResponse) : List Reading :=
  (List.range (respCount resp)).map fun (i : ℕ) =>
    { timestamp :=
        ((resp.time + (i : ℤ) * resp.interval +
          resp.utcOffsetSeconds : ℤ) : ℚ) / 3600
      windSpeedKmh := jsValueOrZero resp.windSpeed10m i
      windSpeed100mKmh := jsValueOrZero resp.windSpeed100m i
      windGustsKmh := jsValueOrZero resp.windGusts10m i
      windDirection := jsValueOrZero resp.windDirection10m i
      temperature := jsValueOrZero resp.temperature2m i
      humidity := jsValueOrZero resp.relativeHumidity2m i
      pressure := jsValueOrZero resp.pressureMsl i }

/-- A provider response whose per-variable arrays disagree in length:
two timestamps but only one wind-speed value and empty other arrays. -/
def mismatchedResponse : ProviderResponse :=
  { time := 0, timeEnd := 7200, interval := 3600, utcOffsetSeconds := 0
    windSpeed10m := [5], windSpeed100m := [], windDirection10m := []
    windDirection100m := [], windGusts10m := [], temperature2m := []
    relativeHumidity2m := [], pressureMsl := [] }

unseal Rat.mul Rat.inv Rat.add Rat.sub in
/-- Counterexample to C5: on a response whose arrays disagree in length
the normalizer does not fail with any error — it produces a full
two-reading sequence, padding the missing values with 0. -/
theorem normalizer_accepts_mismatched_arrays :
    mismatchedResponse.windSpeed10m.length ≠
      mismatchedResponse.windSpeed100m.length ∧
    getHistoricalData mismatchedResponse =
      [{ timestamp := 0, windSpeedKmh := 5, windSpeed100mKmh := 0,
         windGustsKmh := 0, windDirection := 0, temperature := 0,
         humidity := 0, pressure := 0 },
       { timestamp := 1, windSpeedKmh := 0, windSpeed100mKmh := 0,
         windGustsKmh := 0, windDirection := 0, temperature := 0,
         humidity := 0, pressure := 0 }] := by
  refine ⟨by decide, by decide⟩

/-- C5 (amended): the normalizer performs no shape validation and has no
`MalformedSourceData` error path: for every provider response it
produces exactly one reading per synthesized timestamp, and any variable
array too short for an index contributes 0 at that reading rather than
raising an error. -/
theorem normalizer_never_fails (resp : ProviderResponse) :
    (getHistoricalData resp).length = respCount resp ∧
    ∀ i, i < respCount resp →
      ∃ r, (getHistoricalData resp).get? i = some r ∧
        r.windSpeedKmh = (resp.windSpeed10m.get? i).getD 0 ∧
        (resp.windSpeed10m.length ≤ i → r.windSpeedKmh = 0) := by
  constructor
  · simp [getHistoricalData]
  · intro i hi
    have hget : (getHistoricalData resp).get? i = some
        { timestamp :=
            ((resp.time + (i : ℤ) * resp.interval +
              resp.utcOffsetSeconds : ℤ) : ℚ) / 3600
          windSpeedKmh := jsValueOrZero resp.windSpeed10m i
          windSpeed100mKmh := jsValueOrZero resp.windSpeed100m i
          windGustsKmh := jsValueOrZero resp.windGusts10m i
          windDirection := jsValueOrZero resp.windDirection10m i
          temperature := jsValueOrZero resp.temperature2m i
          humidity := jsValueOrZero resp.relativeHumidity2m i
          pressure := jsValueOrZero resp.pressureMsl i } := by
      rw [getHistoricalData, List.get?_map, List.get?_range hi]
      rfl
    refine ⟨_, hget, rfl, ?_⟩
    intro hlen
    simp [jsValueOrZero, List.getElem?_eq_none hlen]

unseal Rat.mul Rat.inv Rat.add Rat.sub in
/-- Witness for the amended C5 at the mismatched response, index 1. -/
theorem normalizer_never_fails_witness :
    (getHistoricalData mismatchedResponse).length =
      respCount mismatchedResponse ∧
    (1 < respCount mismatchedResponse ∧
      ∃ r, (getHistoricalData mismatchedResponse).get? 1 = some r ∧
        r.windSpeedKmh = (mismatchedResponse.windSpeed10m.get? 1).getD 0 ∧
        (mismatchedResponse.windSpeed10m.length ≤ 1 →
          r.windSpeedKmh = 0)) :=
  ⟨(normalizer_never_fails mismatchedResponse).1,
    by decide,
    (normalizer_never_fails mismatchedResponse).2 1 (by decide)⟩

/-! ## Time-period re-analyzer (`TimePeriodsAnalysisService`) -/

/-- An externally supplied analysis window. -/
structure TimeWindow where
  startTime : ℚ
  endTime : ℚ
deriving DecidableEq, Repr

/-- Model of `getWindDataForPeriod`: the upstream fetch either fails
(the catch returns an empty list) or yields readings, which are filtered
to the window, inclusive on both ends
(`moment.isBetween(start, end, null, "[]")`). -/
def getWindDataForPeriod (fetch : Except Unit (List Reading))
    (w : TimeWindow) : List Reading :=
  match fetch with
  | .error _ => []
  | .ok allData =>
      allData.filter fun r =>
        decide (w.startTime ≤ r.timestamp ∧ r.timestamp ≤ w.endTime)

/-- One cell of `analyzeWindFarmForTimePeriods`: `null` when no readings
fall in the window (also after a failed fetch), otherwise the arithmetic
mean reference-height (10 m) speed of the windowed readings. -/
def averageSpeedForPeriod (fetch : Except Unit (List Reading))
    (w : TimeWindow) : Option ℚ :=
  let windData := getWindDataForPeriod fetch w
  if windData.length = 0 then none
  else some ((windData.map (fun r => r.windSpeedKmh)).sum /
    windData.length)

/-- The per-farm row of `analyzeWindFarmForTimePeriods`: one cell per
supplied window, a per-window failure yielding `null` for that cell
only. -/
def analyzeWindFarmForTimePeriods
    (fetch : TimeWindow → Except Unit (List Reading))
    (timePeriods : List TimeWindow) : List (Option ℚ) :=
  timePeriods.map fun w => averageSpeedForPeriod (fetch w) w

/-- C9: a cell of the time-period re-analyzer is `null` when the fetch
for that site/window failed; for a successful fetch it is `null` exactly
when no reading lies in `[start, end]` (inclusive on both ends), and
otherwise it is the arithmetic mean of the reference-height speeds of
exactly the readings whose timestamps lie in that closed window. -/
theorem time_period_cell_average (data : List Reading) (w : TimeWindow) :
    averageSpeedForPeriod (Except.error ()) w = none ∧
    (averageSpeedForPeriod (Except.ok data) w = none ↔
      ∀ r ∈ data,
        ¬(w.startTime ≤ r.timestamp ∧ r.timestamp ≤ w.endTime)) ∧
    ((∃ r ∈ data, w.startTime ≤ r.timestamp ∧ r.timestamp ≤ w.endTime) →
      averageSpeedForPeriod (Except.ok data) w =
        some
          (((data.filter fun r =>
              decide (w.startTime ≤ r.timestamp ∧
                r.timestamp ≤ w.endTime)).map
            (fun r => r.windSpeedKmh)).sum /
          (data.filter fun r =>
            decide (w.startTime ≤ r.timestamp ∧
              r.timestamp ≤ w.endTime)).length)) := by
  refine ⟨rfl, ?_, ?_⟩
  · simp only [averageSpeedForPeriod, getWindDataForPeriod]
    constructor
    · intro h r hr hin
      by_cases hlen : (data.filter fun r =>
          decide (w.startTime ≤ r.timestamp ∧
            r.timestamp ≤ w.endTime)).length = 0
      · have : r ∈ data.filter fun r =>
            decide (w.startTime ≤ r.timestamp ∧
              r.timestamp ≤ w.endTime) :=
          List.mem_filter.mpr ⟨hr, by simpa using hin⟩
        rw [List.length_eq_zero.mp hlen] at this
        simp at this
      · simp only [if_neg hlen] at h
        cases h
    · intro h
      rw [if_pos]
      rw [List.length_eq_zero, List.filter_eq_nil_iff]
      intro r hr
      simpa using h r hr
  · intro ⟨r, hr, hin⟩
    simp only [averageSpeedForPeriod, getWindDataForPeriod]
    rw [if_neg]
    intro hlen
    have hmem : r ∈ data.filter fun r =>
        decide (w.startTime ≤ r.timestamp ∧ r.timestamp ≤ w.endTime) :=
      List.mem_filter.mpr ⟨hr, by simpa using hin⟩
    rw [List.length_eq_zero.mp hlen] at hmem
    simp at hmem

unseal Rat.mul Rat.inv Rat.add Rat.sub in
/-- Witness for C9: one of two readings falls in the window [2, 5]. -/
theorem time_period_cell_average_witness :
    averageSpeedForPeriod (Except.error ())
      { startTime := 2, endTime := 5 } = none ∧
    (∃ r ∈ [exampleReadingAt 3, exampleReadingAt 10],
      (2 : ℚ) ≤ r.timestamp ∧ r.timestamp ≤ 5) ∧
    averageSpeedForPeriod
        (Except.ok [exampleReadingAt 3, exampleReadingAt 10])
        { startTime := 2, endTime := 5 } =
      some
        ((([exampleReadingAt 3, exampleReadingAt 10].filter fun r =>
            decide ((2 : ℚ) ≤ r.timestamp ∧ r.timestamp ≤ 5)).map
          (fun r => r.windSpeedKmh)).sum /
        ([exampleReadingAt 3, exampleReadingAt 10].filter fun r =>
          decide ((2 : ℚ) ≤ r.timestamp ∧ r.timestamp ≤ 5)).length) :=
  ⟨(time_period_cell_average [exampleReadingAt 3, exampleReadingAt 10]
      { startTime := 2, endTime := 5 }).1,
    ⟨exampleReadingAt 3, by decide, by decide⟩,
    (time_period_cell_average [exampleReadingAt 3, exampleReadingAt 10]
      { startTime := 2, endTime := 5 }).2.2
      ⟨exampleReadingAt 3, by decide, by decide⟩⟩

end WindFarmsNZ
